import Mathlib

/-!
SimpleVector: a shallow embedding of `simple-vector/simple_vector.h`.

The container is a record of its three private members: the owned buffer
`simple_vector_`, the logical length `size_` and the stored capacity
`capacity_`.  Both counters are `size_t`; every arithmetic step on them is
taken modulo `2 ^ 64`.

Positions (`Iterator`, `ConstIterator`) are raw element pointers.  A position
is represented by its signed offset from `begin()`, so `begin()` is `0` and
`end()` is `size_`.

The buffer is a list of its allocated slots.  The C++ code indexes the buffer
without any check, so an access can land outside the allocation.  Every
operation that writes therefore also reports a flag `in_bounds`: it is `true` when every
element access of the call hit an allocated slot and every iterator range
handed to a standard algorithm was a valid one.  When the flag is `false` the
C++ standard leaves the call undefined; the embedding then still records what
the code stores into `size_` and `capacity_` (these never depend on buffer
contents), drops the out-of-buffer writes and reads `Type{}` for the
out-of-buffer reads.  Taking the address of a slot, as in `&simple_vector_[k]`,
`begin()` and `end()`, is not an access.  The comparison operators only read
and return a `bool`; they report no flag.

Allocation failure (`std::bad_alloc`) is not modelled.
-/

namespace SimpleVectorModel

/-- Number of values of `size_t`. -/
def SIZE_MOD : Nat := 2 ^ 64

/-- The only exception the container throws itself: `std::out_of_range`. -/
inductive Error where
  | out_of_range
  deriving DecidableEq

/-- Modelled from the spec: the owned buffer `ArrayPtr<Type>` of `array_ptr.h`,
which is not among the sources.  It owns one block of element slots, gives
unchecked indexed access and can exchange its block with another buffer.  A
buffer is the list of its slots; the null buffer is the empty list. -/
abbrev ArrayPtr (α : Type) := List α

/-- Modelled from the spec: the constructor `ArrayPtr(size)` of `array_ptr.h`,
which allocates a block of `size` default-constructed elements. -/
def ArrayPtr.alloc {α : Type} [Inhabited α] (size : Nat) : ArrayPtr α :=
  List.replicate size default

/-- The three data members of `SimpleVector<Type>`. -/
structure SimpleVector (α : Type) where
  simple_vector_ : ArrayPtr α
  size_ : Nat
  capacity_ : Nat

/-- What a call leaves behind: the vector, the returned value, and whether all
buffer accesses of the call stayed inside the allocated slots. -/
structure Outcome (α ρ : Type) where
  vec : SimpleVector α
  ret : ρ
  in_bounds : Bool

/-! ## Standard algorithms on buffers -/

/-- Loop of `std::copy` / `std::move` from one buffer into another one:
`n` assignments `dst[d++] = src[first++]`, front to back. -/
def copy_loop {α : Type} [Inhabited α] (src : List α) :
    Nat → Nat → List α → Nat → List α × Bool
  | 0, _, dst, _ => (dst, true)
  | n + 1, first, dst, d =>
    let r := copy_loop src n (first + 1) (dst.set d (src.getD first default)) (d + 1)
    (r.1, decide (first < src.length) && decide (d < dst.length) && r.2)

/-- The call `std::copy(first, last, d_first)` (also `std::move(first, last, d_first)`)
with source and destination in different buffers.  The range is valid only
when `first ≤ last`; an inverted range copies nothing. -/
def std_copy {α : Type} [Inhabited α] (src : List α) (first last : Nat)
    (dst : List α) (d_first : Nat) : List α × Bool :=
  let r := copy_loop src (last - first) first dst d_first
  (r.1, decide (first ≤ last) && r.2)

/-- Loop of `std::move` with source and destination in the same buffer:
`n` assignments `buf[d++] = buf[first++]`, front to back. -/
def move_loop {α : Type} [Inhabited α] :
    Nat → Nat → List α → Nat → List α × Bool
  | 0, _, buf, _ => (buf, true)
  | n + 1, first, buf, d =>
    let r := move_loop n (first + 1) (buf.set d (buf.getD first default)) (d + 1)
    (r.1, decide (first < buf.length) && decide (d < buf.length) && r.2)

/-- The call `std::move(first, last, d_first)` inside one buffer.  The range is
valid only when `first ≤ last`; an inverted range moves nothing. -/
def std_move_within {α : Type} [Inhabited α] (buf : List α) (first last d_first : Nat) :
    List α × Bool :=
  let r := move_loop (last - first) first buf d_first
  (r.1, decide (first ≤ last) && r.2)

/-- Loop of `std::copy_backward` from one buffer into another one:
`n` assignments `dst[--d_last] = src[--last]`, back to front. -/
def copy_backward_loop {α : Type} [Inhabited α] (src : List α) :
    Nat → Nat → List α → Nat → List α × Bool
  | 0, _, dst, _ => (dst, true)
  | n + 1, last, dst, d_last =>
    let r := copy_backward_loop src n (last - 1)
      (if 0 < d_last then dst.set (d_last - 1) (src.getD (last - 1) default) else dst)
      (d_last - 1)
    (r.1, decide (0 < last) && decide (last - 1 < src.length) &&
          decide (0 < d_last) && decide (d_last - 1 < dst.length) && r.2)

/-- The call `std::copy_backward(first, last, d_last)` with source and
destination in different buffers. -/
def std_copy_backward {α : Type} [Inhabited α] (src : List α) (first last : Nat)
    (dst : List α) (d_last : Nat) : List α × Bool :=
  let r := copy_backward_loop src (last - first) last dst d_last
  (r.1, decide (first ≤ last) && r.2)

/-- Loop of `std::copy_backward` inside one buffer:
`n` assignments `buf[--d_last] = buf[--last]`, back to front. -/
def copy_backward_within_loop {α : Type} [Inhabited α] :
    Nat → Nat → List α → Nat → List α × Bool
  | 0, _, buf, _ => (buf, true)
  | n + 1, last, buf, d_last =>
    let r := copy_backward_within_loop n (last - 1)
      (if 0 < d_last then buf.set (d_last - 1) (buf.getD (last - 1) default) else buf)
      (d_last - 1)
    (r.1, decide (0 < last) && decide (last - 1 < buf.length) &&
          decide (0 < d_last) && decide (d_last - 1 < buf.length) && r.2)

/-- The call `std::copy_backward(first, last, d_last)` inside one buffer. -/
def std_copy_backward_within {α : Type} [Inhabited α] (buf : List α)
    (first last d_last : Nat) : List α × Bool :=
  let r := copy_backward_within_loop (last - first) last buf d_last
  (r.1, decide (first ≤ last) && r.2)

/-- Loop of `std::fill`: `n` assignments `buf[first++] = value`. -/
def fill_loop {α : Type} (value : α) : Nat → Nat → List α → List α × Bool
  | 0, _, buf => (buf, true)
  | n + 1, first, buf =>
    let r := fill_loop value n (first + 1) (buf.set first value)
    (r.1, decide (first < buf.length) && r.2)

/-- The call `std::fill(first, last, value)`. -/
def std_fill {α : Type} (buf : List α) (first last : Nat) (value : α) : List α × Bool :=
  let r := fill_loop value (last - first) first buf
  (r.1, decide (first ≤ last) && r.2)

/-! ## Constructors -/

/-- Constructor `SimpleVector() noexcept = default`: null buffer, both counters zero. -/
def SimpleVector.default_ctor {α : Type} : SimpleVector α :=
  { simple_vector_ := [], size_ := 0, capacity_ := 0 }

/-- Constructor `SimpleVector(size_t size, const Type& value)`: a buffer of `size` slots,
both counters `size`, then `std::fill(begin(), end(), value)`. -/
def SimpleVector.fill_ctor {α : Type} [Inhabited α] (size : Nat) (value : α) :
    Outcome α Unit :=
  let r := std_fill (ArrayPtr.alloc size : ArrayPtr α) 0 size value
  { vec := { simple_vector_ := r.1, size_ := size, capacity_ := size },
    ret := (), in_bounds := r.2 }

/-- Constructor `explicit SimpleVector(size_t size)`: calls the filling constructor
with `Type{}`. -/
def SimpleVector.size_ctor {α : Type} [Inhabited α] (size : Nat) : Outcome α Unit :=
  SimpleVector.fill_ctor size default

/-- Constructor `SimpleVector(std::initializer_list<Type> init)`: a buffer of `init.size()`
slots, both counters `init.size()`, then the values are moved in, in order. -/
def SimpleVector.init_ctor {α : Type} [Inhabited α] (init : List α) : Outcome α Unit :=
  let r := std_copy init 0 init.length (ArrayPtr.alloc init.length : ArrayPtr α) 0
  { vec := { simple_vector_ := r.1, size_ := init.length, capacity_ := init.length },
    ret := (), in_bounds := r.2 }

/-- Copy constructor `SimpleVector(const SimpleVector& other)`: the new buffer `replicator` has
`other.size_` slots, `size_` and `capacity_` are taken over from `other`, and
`[other.begin(), other.end())` is copied into the new buffer. -/
def SimpleVector.copy_ctor {α : Type} [Inhabited α] (other : SimpleVector α) :
    Outcome α Unit :=
  let replicator : ArrayPtr α := ArrayPtr.alloc other.size_
  let r := std_copy other.simple_vector_ 0 other.size_ replicator 0
  { vec := { simple_vector_ := r.1, size_ := other.size_, capacity_ := other.capacity_ },
    ret := (), in_bounds := r.2 }

/-- Member `void Clear() noexcept`: `size_ = 0`. -/
def SimpleVector.Clear {α : Type} (v : SimpleVector α) : SimpleVector α :=
  { v with size_ := 0 }

/-- Move constructor `SimpleVector(SimpleVector&& other)`: this vector starts with a fresh buffer
of `other.size_` slots, takes over both counters, swaps buffers with `other`
and calls `other.Clear()`.  The result is the pair (new vector, `other` after
the call). -/
def SimpleVector.move_ctor {α : Type} [Inhabited α] (other : SimpleVector α) :
    SimpleVector α × SimpleVector α :=
  let fresh : ArrayPtr α := ArrayPtr.alloc other.size_
  let this : SimpleVector α :=
    { simple_vector_ := other.simple_vector_, size_ := other.size_,
      capacity_ := other.capacity_ }
  let other1 : SimpleVector α := { other with simple_vector_ := fresh }
  (this, other1.Clear)

/-- Member `void swap(SimpleVector& other) noexcept`: exchanges buffers and counters.
The result is the pair (this vector, `other`) after the call. -/
def SimpleVector.swap {α : Type} (v other : SimpleVector α) :
    SimpleVector α × SimpleVector α :=
  ({ simple_vector_ := other.simple_vector_, size_ := other.size_,
     capacity_ := other.capacity_ },
   { simple_vector_ := v.simple_vector_, size_ := v.size_, capacity_ := v.capacity_ })

/-- Member `void Reserve(size_t new_capacity)`. -/
def SimpleVector.Reserve {α : Type} [Inhabited α] (v : SimpleVector α)
    (new_capacity : Nat) : Outcome α Unit :=
  if new_capacity > v.capacity_ then
    let replicator : ArrayPtr α := ArrayPtr.alloc new_capacity
    let r := std_copy v.simple_vector_ 0 v.size_ replicator 0
    { vec := { simple_vector_ := r.1, size_ := v.size_, capacity_ := new_capacity },
      ret := (), in_bounds := r.2 }
  else
    { vec := v, ret := (), in_bounds := true }

/-- Constructor `SimpleVector(ReserveProxyObj capacity_to_reserve)`: a default vector on
which `Reserve(capacity_to_reserve.Reserve_capacity())` is called. -/
def SimpleVector.reserve_ctor {α : Type} [Inhabited α] (capacity_to_reserve : Nat) :
    Outcome α Unit :=
  (SimpleVector.default_ctor : SimpleVector α).Reserve capacity_to_reserve

/-- Copy assignment `SimpleVector& operator=(const SimpleVector& rhs)`: unless `this == &rhs`
(`same_object`), copy-construct `replicator` from `rhs` and swap with it. -/
def SimpleVector.assign {α : Type} [Inhabited α] (v rhs : SimpleVector α)
    (same_object : Bool) : Outcome α Unit :=
  if same_object then
    { vec := v, ret := (), in_bounds := true }
  else
    let replicator := SimpleVector.copy_ctor rhs
    { vec := (v.swap replicator.vec).1, ret := (), in_bounds := replicator.in_bounds }

/-! ## Appending -/

/-- Member `void PushBack(const Type& item)`. -/
def SimpleVector.PushBack {α : Type} [Inhabited α] (v : SimpleVector α) (item : α) :
    Outcome α Unit :=
  if v.capacity_ > v.size_ then
    { vec := { simple_vector_ := v.simple_vector_.set v.size_ item,
               size_ := (v.size_ + 1) % SIZE_MOD, capacity_ := v.capacity_ },
      ret := (), in_bounds := decide (v.size_ < v.simple_vector_.length) }
  else if v.capacity_ > 0 then
    let capacity := v.capacity_ * 2 % SIZE_MOD
    let replicator : ArrayPtr α := ArrayPtr.alloc capacity
    let r := std_copy v.simple_vector_ 0 v.size_ replicator 0
    { vec := { simple_vector_ := r.1.set v.size_ item,
               size_ := (v.size_ + 1) % SIZE_MOD, capacity_ := capacity },
      ret := (), in_bounds := r.2 && decide (v.size_ < r.1.length) }
  else
    let capacity := (v.capacity_ + 1) % SIZE_MOD
    let replicator : ArrayPtr α := ArrayPtr.alloc capacity
    let r := std_copy v.simple_vector_ 0 v.size_ replicator 0
    { vec := { simple_vector_ := r.1.set v.size_ item,
               size_ := (v.size_ + 1) % SIZE_MOD, capacity_ := capacity },
      ret := (), in_bounds := r.2 && decide (v.size_ < r.1.length) }

/-- Member `void PushBack(Type&& item)`: the same three branches, with `std::move` in
place of `std::copy`; moving an element is modelled as copying it. -/
def SimpleVector.PushBack_move {α : Type} [Inhabited α] (v : SimpleVector α) (item : α) :
    Outcome α Unit :=
  if v.capacity_ > v.size_ then
    { vec := { simple_vector_ := v.simple_vector_.set v.size_ item,
               size_ := (v.size_ + 1) % SIZE_MOD, capacity_ := v.capacity_ },
      ret := (), in_bounds := decide (v.size_ < v.simple_vector_.length) }
  else if v.capacity_ > 0 then
    let capacity := v.capacity_ * 2 % SIZE_MOD
    let replicator : ArrayPtr α := ArrayPtr.alloc capacity
    let r := std_copy v.simple_vector_ 0 v.size_ replicator 0
    { vec := { simple_vector_ := r.1.set v.size_ item,
               size_ := (v.size_ + 1) % SIZE_MOD, capacity_ := capacity },
      ret := (), in_bounds := r.2 && decide (v.size_ < r.1.length) }
  else
    let capacity := (v.capacity_ + 1) % SIZE_MOD
    let replicator : ArrayPtr α := ArrayPtr.alloc capacity
    let r := std_copy v.simple_vector_ 0 v.size_ replicator 0
    { vec := { simple_vector_ := r.1.set v.size_ item,
               size_ := (v.size_ + 1) % SIZE_MOD, capacity_ := capacity },
      ret := (), in_bounds := r.2 && decide (v.size_ < r.1.length) }

/-! ## Inserting -/

/-- The hand-written loop of the copying `Insert`:
`for (size_t i = size_; i > (size_t)interval; --i) simple_vector_[i] = simple_vector_[i - 1];`
started at `i`. -/
def insert_shift_loop {α : Type} [Inhabited α] (interval : Nat) :
    Nat → List α → List α × Bool
  | 0, buf => (buf, true)
  | i + 1, buf =>
    if i + 1 > interval then
      let r := insert_shift_loop interval i (buf.set (i + 1) (buf.getD i default))
      (r.1, decide (i < buf.length) && decide (i + 1 < buf.length) && r.2)
    else
      (buf, true)

/-- Member `Iterator Insert(ConstIterator pos, const Type& value)`.  The
returned iterator `interval + begin()` is given as its offset from `begin()`. -/
def SimpleVector.Insert {α : Type} [Inhabited α] (v : SimpleVector α) (pos : Int)
    (value : α) : Except Error (Outcome α Nat) :=
  if 0 ≤ pos ∧ (v.size_ : Int) ≥ pos then
    let interval := pos.toNat
    let grown : SimpleVector α × Bool :=
      if v.size_ = v.capacity_ then
        if v.size_ > 0 then
          -- `ArrayPtr<Type> replicator(size_ *= 2)`, then `end()` is read with the new `size_`
          let size := v.size_ * 2 % SIZE_MOD
          let replicator : ArrayPtr α := ArrayPtr.alloc size
          let r := std_copy v.simple_vector_ 0 size replicator 0
          ({ simple_vector_ := r.1, size_ := size, capacity_ := size * 2 % SIZE_MOD }, r.2)
        else
          let capacity := (v.capacity_ + 1) % SIZE_MOD
          let replicator : ArrayPtr α := ArrayPtr.alloc capacity
          let r := std_copy v.simple_vector_ 0 v.size_ replicator 0
          ({ simple_vector_ := r.1, size_ := v.size_, capacity_ := 1 }, r.2)
      else
        (v, true)
    let shifted := insert_shift_loop interval grown.1.size_ grown.1.simple_vector_
    .ok { vec := { simple_vector_ := shifted.1.set interval value,
                   size_ := (grown.1.size_ + 1) % SIZE_MOD,
                   capacity_ := grown.1.capacity_ },
          ret := interval,
          in_bounds := grown.2 && shifted.2 && decide (interval < shifted.1.length) }
  else
    .error Error.out_of_range

/-- Member `Iterator Insert(ConstIterator pos, Type&& value)`; moving an element
is modelled as copying it.  In the last branch the arguments `end()` and
`++size_ + 1` of one call are evaluated in an order the language leaves open:
`end_first` says that `end()` is read before `size_` is incremented. -/
def SimpleVector.Insert_move {α : Type} [Inhabited α] (v : SimpleVector α) (pos : Int)
    (value : α) (end_first : Bool) : Except Error (Outcome α Nat) :=
  if 0 ≤ pos ∧ (v.size_ : Int) ≥ pos then
    if v.capacity_ = 0 then
      let capacity := (v.capacity_ + 1) % SIZE_MOD
      let replicator : ArrayPtr α := ArrayPtr.alloc capacity
      let r := std_copy v.simple_vector_ 0 v.size_ replicator 0
      .ok { vec := { simple_vector_ := r.1.set v.size_ value,
                     size_ := (v.size_ + 1) % SIZE_MOD, capacity_ := capacity },
            ret := 0,
            in_bounds := r.2 && decide (v.size_ < r.1.length) }
    else if v.capacity_ ≤ v.size_ then
      let interval := pos.toNat
      let capacity := v.capacity_ * 2 % SIZE_MOD
      let replicator : ArrayPtr α := ArrayPtr.alloc capacity
      let r := std_copy v.simple_vector_ 0 v.size_ replicator 0
      let b := std_copy_backward v.simple_vector_ interval v.size_ r.1
        ((1 + v.size_) % SIZE_MOD)
      .ok { vec := { simple_vector_ := b.1.set interval value,
                     size_ := (v.size_ + 1) % SIZE_MOD, capacity_ := capacity },
            ret := interval,
            in_bounds := r.2 && b.2 && decide (interval < b.1.length) }
    else
      let interval := pos.toNat
      let size := (v.size_ + 1) % SIZE_MOD
      let last := if end_first then v.size_ else size
      let b := std_copy_backward_within v.simple_vector_ interval last
        ((size + 1) % SIZE_MOD)
      .ok { vec := { simple_vector_ := b.1.set interval value,
                     size_ := size, capacity_ := v.capacity_ },
            ret := interval,
            in_bounds := b.2 && decide (interval < b.1.length) }
  else
    .error Error.out_of_range

/-! ## Removing -/

/-- Member `void PopBack() noexcept`. -/
def SimpleVector.PopBack {α : Type} (v : SimpleVector α) : SimpleVector α :=
  if v.size_ > 0 then { v with size_ := v.size_ - 1 } else v

/-- Member `Iterator Erase(ConstIterator pos)`.  The guard is
`begin() <= pos && end() >= pos`; then `std::move(&simple_vector_[interval + 1], end(), pos)`
and `size_--` (a `size_t` decrement, wrapping at zero).  The returned iterator
`pos` is given as its offset from `begin()`. -/
def SimpleVector.Erase {α : Type} [Inhabited α] (v : SimpleVector α) (pos : Int) :
    Except Error (Outcome α Nat) :=
  if 0 ≤ pos ∧ (v.size_ : Int) ≥ pos then
    let interval := pos.toNat
    let r := std_move_within v.simple_vector_ (interval + 1) v.size_ interval
    .ok { vec := { simple_vector_ := r.1,
                   size_ := (v.size_ + (SIZE_MOD - 1)) % SIZE_MOD,
                   capacity_ := v.capacity_ },
          ret := interval,
          in_bounds := r.2 }
  else
    .error Error.out_of_range

/-! ## Resizing -/

/-- The hand-written loop of `Resize`:
`for (auto iter = begin() + new_size; iter != end(); --iter) *iter = std::move(Type{});`
with `k` iterations left and `iter` at offset `iter`. -/
def resize_fill_loop {α : Type} [Inhabited α] : Nat → Nat → List α → List α × Bool
  | 0, _, buf => (buf, true)
  | k + 1, iter, buf =>
    let r := resize_fill_loop k (iter - 1) (buf.set iter default)
    (r.1, decide (iter < buf.length) && r.2)

/-- Member `void Resize(size_t new_size)`.  In the middle branch `iter` starts at
`begin() + new_size` and steps down until it meets `end()`, which takes
`new_size - size_` iterations. -/
def SimpleVector.Resize {α : Type} [Inhabited α] (v : SimpleVector α) (new_size : Nat) :
    Outcome α Unit :=
  if v.size_ ≥ new_size then
    { vec := { v with size_ := new_size }, ret := (), in_bounds := true }
  else if v.size_ < new_size ∧ v.capacity_ > new_size then
    let r := resize_fill_loop (new_size - v.size_) new_size v.simple_vector_
    { vec := { simple_vector_ := r.1, size_ := new_size, capacity_ := v.capacity_ },
      ret := (), in_bounds := r.2 }
  else
    let replicator : ArrayPtr α := ArrayPtr.alloc new_size
    let r := std_copy v.simple_vector_ 0 v.size_ replicator 0
    { vec := { simple_vector_ := r.1, size_ := new_size,
               capacity_ := new_size * 2 % SIZE_MOD },
      ret := (), in_bounds := r.2 }

/-! ## Access -/

/-- Member `size_t GetSize() const noexcept`. -/
def SimpleVector.GetSize {α : Type} (v : SimpleVector α) : Nat := v.size_

/-- Member `size_t GetCapacity() const noexcept`. -/
def SimpleVector.GetCapacity {α : Type} (v : SimpleVector α) : Nat := v.capacity_

/-- Member `bool IsEmpty() const noexcept`. -/
def SimpleVector.IsEmpty {α : Type} (v : SimpleVector α) : Bool := decide (v.size_ = 0)

/-- Member `operator[](size_t index)`: the slot `simple_vector_[index]`, read
without a check (`none` when `index` is no allocated slot).  The `assert` is
compiled out in release builds and is not part of the value. -/
def SimpleVector.index {α : Type} (v : SimpleVector α) (index : Nat) : Option α :=
  v.simple_vector_[index]?

/-- Member `At(size_t index)`, both overloads: throws when `index >= size_`,
otherwise reads the slot `simple_vector_[index]` (`none` when `index` is no
allocated slot). -/
def SimpleVector.At {α : Type} (v : SimpleVector α) (index : Nat) :
    Except Error (Option α) :=
  if index ≥ v.size_ then .error Error.out_of_range
  else .ok v.simple_vector_[index]?

/-- The sequence a vector holds: the slots at the logical indices `[0, size_)`. -/
def SimpleVector.contents {α : Type} (v : SimpleVector α) : List α :=
  v.simple_vector_.take v.size_

/-! ## Comparison -/

/-- Loop of `std::equal`: up to `n` comparisons `*first1++ == *first2++`, ending
with `false` at the first pair that does not compare equal. -/
def equal_loop {α : Type} [Inhabited α] [BEq α] (b1 b2 : List α) : Nat → Nat → Nat → Bool
  | 0, _, _ => true
  | n + 1, first1, first2 =>
    if b1.getD first1 default == b2.getD first2 default then
      equal_loop b1 b2 n (first1 + 1) (first2 + 1)
    else
      false

/-- The call `std::equal(first1, last1, first2, last2)` on element pointers
(random-access iterators): ranges of different lengths are unequal, ranges of
the same length are compared element by element. -/
def std_equal {α : Type} [Inhabited α] [BEq α] (b1 : List α) (first1 last1 : Nat)
    (b2 : List α) (first2 last2 : Nat) : Bool :=
  if last1 - first1 ≠ last2 - first2 then false
  else equal_loop b1 b2 (last1 - first1) first1 first2

/-- Loop of `std::lexicographical_compare` with `n` elements left in the first
range: it runs while neither range is exhausted, answers `true` when
`*first1 < *first2`, `false` when `*first2 < *first1`, and after the loop
answers whether the first range is exhausted and the second one is not. -/
def lexicographical_compare_loop {α : Type} [Inhabited α] [LT α]
    [DecidableRel (fun x y : α => x < y)] (b1 b2 : List α) (last2 : Nat) :
    Nat → Nat → Nat → Bool
  | 0, _, first2 => decide (first2 ≠ last2)
  | n + 1, first1, first2 =>
    if first2 = last2 then false
    else if b1.getD first1 default < b2.getD first2 default then true
    else if b2.getD first2 default < b1.getD first1 default then false
    else lexicographical_compare_loop b1 b2 last2 n (first1 + 1) (first2 + 1)

/-- The call `std::lexicographical_compare(first1, last1, first2, last2)`. -/
def std_lexicographical_compare {α : Type} [Inhabited α] [LT α]
    [DecidableRel (fun x y : α => x < y)] (b1 : List α) (first1 last1 : Nat)
    (b2 : List α) (first2 last2 : Nat) : Bool :=
  lexicographical_compare_loop b1 b2 last2 (last1 - first1) first1 first2

/-- Free function `operator==`: `std::equal(lhs.begin(), lhs.end(), rhs.begin(), rhs.end())`. -/
def SimpleVector.operator_eq {α : Type} [Inhabited α] [BEq α] (lhs rhs : SimpleVector α) :
    Bool :=
  std_equal lhs.simple_vector_ 0 lhs.size_ rhs.simple_vector_ 0 rhs.size_

/-- Free function `operator!=`: `!(lhs == rhs)`. -/
def SimpleVector.operator_ne {α : Type} [Inhabited α] [BEq α] (lhs rhs : SimpleVector α) :
    Bool :=
  !(lhs.operator_eq rhs)

/-- Free function `operator<`:
`std::lexicographical_compare(lhs.begin(), lhs.end(), rhs.begin(), rhs.end())`. -/
def SimpleVector.operator_lt {α : Type} [Inhabited α] [LT α]
    [DecidableRel (fun x y : α => x < y)] (lhs rhs : SimpleVector α) : Bool :=
  std_lexicographical_compare lhs.simple_vector_ 0 lhs.size_ rhs.simple_vector_ 0 rhs.size_

/-- Free function `operator<=`: `(lhs < rhs) || (lhs == rhs)`. -/
def SimpleVector.operator_le {α : Type} [Inhabited α] [BEq α] [LT α]
    [DecidableRel (fun x y : α => x < y)] (lhs rhs : SimpleVector α) : Bool :=
  lhs.operator_lt rhs || lhs.operator_eq rhs

/-- Free function `operator>`: `rhs < lhs`. -/
def SimpleVector.operator_gt {α : Type} [Inhabited α] [LT α]
    [DecidableRel (fun x y : α => x < y)] (lhs rhs : SimpleVector α) : Bool :=
  rhs.operator_lt lhs

/-- Free function `operator>=`: `!(rhs < lhs)`. -/
def SimpleVector.operator_ge {α : Type} [Inhabited α] [LT α]
    [DecidableRel (fun x y : α => x < y)] (lhs rhs : SimpleVector α) : Bool :=
  !(rhs.operator_lt lhs)

/-! ## Sequences of calls -/

/-- One `PushBack(item)` call for every item of a list, in order; the flag says
that every one of the calls stayed inside the buffer. -/
def SimpleVector.PushBack_each {α : Type} [Inhabited α] (v : SimpleVector α) :
    List α → Outcome α Unit
  | [] => { vec := v, ret := (), in_bounds := true }
  | item :: rest =>
    let r := v.PushBack item
    let t := SimpleVector.PushBack_each r.vec rest
    { vec := t.vec, ret := (), in_bounds := r.in_bounds && t.in_bounds }

/-! ## Reachable states -/

/-- The vectors a program can build: the result of any constructor, and the
result of any public operation on reachable vectors that does not throw
`std::out_of_range`.  Arguments of type `size_t` are below `SIZE_MOD`. -/
inductive Reachable {α : Type} [Inhabited α] : SimpleVector α → Prop
  | default_ctor : Reachable SimpleVector.default_ctor
  | size_ctor (size : Nat) : size < SIZE_MOD → Reachable (SimpleVector.size_ctor size).vec
  | fill_ctor (size : Nat) (value : α) : size < SIZE_MOD →
      Reachable (SimpleVector.fill_ctor size value).vec
  | init_ctor (init : List α) : init.length < SIZE_MOD →
      Reachable (SimpleVector.init_ctor init).vec
  | reserve_ctor (capacity_to_reserve : Nat) : capacity_to_reserve < SIZE_MOD →
      Reachable (SimpleVector.reserve_ctor capacity_to_reserve).vec
  | copy_ctor {other : SimpleVector α} : Reachable other →
      Reachable (SimpleVector.copy_ctor other).vec
  | move_ctor_target {other : SimpleVector α} : Reachable other →
      Reachable (SimpleVector.move_ctor other).1
  | move_ctor_source {other : SimpleVector α} : Reachable other →
      Reachable (SimpleVector.move_ctor other).2
  | assign {v rhs : SimpleVector α} (same_object : Bool) : Reachable v → Reachable rhs →
      Reachable (v.assign rhs same_object).vec
  | swap_this {v other : SimpleVector α} : Reachable v → Reachable other →
      Reachable (v.swap other).1
  | swap_other {v other : SimpleVector α} : Reachable v → Reachable other →
      Reachable (v.swap other).2
  | PushBack {v : SimpleVector α} (item : α) : Reachable v → Reachable (v.PushBack item).vec
  | PushBack_move {v : SimpleVector α} (item : α) : Reachable v →
      Reachable (v.PushBack_move item).vec
  | Insert {v : SimpleVector α} (pos : Int) (value : α) (r : Outcome α Nat) : Reachable v →
      v.Insert pos value = .ok r → Reachable r.vec
  | Insert_move {v : SimpleVector α} (pos : Int) (value : α) (end_first : Bool)
      (r : Outcome α Nat) : Reachable v →
      v.Insert_move pos value end_first = .ok r → Reachable r.vec
  | PopBack {v : SimpleVector α} : Reachable v → Reachable v.PopBack
  | Erase {v : SimpleVector α} (pos : Int) (r : Outcome α Nat) : Reachable v →
      v.Erase pos = .ok r → Reachable r.vec
  | Reserve {v : SimpleVector α} (new_capacity : Nat) : Reachable v →
      new_capacity < SIZE_MOD → Reachable (v.Reserve new_capacity).vec
  | Resize {v : SimpleVector α} (new_size : Nat) : Reachable v →
      new_size < SIZE_MOD → Reachable (v.Resize new_size).vec
  | Clear {v : SimpleVector α} : Reachable v → Reachable v.Clear

/-! ## Lemmas on the buffer loops -/

/-- An in-bounds slot read with a fallback is the slot itself. -/
theorem getD_eq_some {α : Type} [Inhabited α] (l : List α) (k : Nat) (h : k < l.length) :
    l[k]? = some (l.getD k default) := by
  rw [List.getD_eq_getElem?_getD, List.getElem?_eq_getElem h]; rfl

/-- Copying never changes the number of slots of the destination. -/
theorem copy_loop_length {α : Type} [Inhabited α] (src : List α) (n first : Nat) (dst : List α)
    (d : Nat) : (copy_loop src n first dst d).1.length = dst.length := by
  induction n generalizing first dst d with
  | zero => rfl
  | succ n ih => simp [copy_loop, ih]

/-- A copy whose source and destination ranges are allocated stays in bounds. -/
theorem copy_loop_in_bounds {α : Type} [Inhabited α] (src : List α) (n first : Nat)
    (dst : List α) (d : Nat) (hs : first + n ≤ src.length) (hd : d + n ≤ dst.length) :
    (copy_loop src n first dst d).2 = true := by
  induction n generalizing first dst d with
  | zero => rfl
  | succ n ih =>
    have h1 := ih (first + 1) (dst.set d (src.getD first default)) (d + 1) (by omega)
      (by rw [List.length_set]; omega)
    simp only [copy_loop, h1, Bool.and_true, Bool.and_eq_true, decide_eq_true_eq]
    omega

/-- Slot by slot, an in-bounds copy puts `src[first + k]` at `dst[d + k]` for
`k < n` and leaves every other slot of `dst` alone. -/
theorem copy_loop_getElem? {α : Type} [Inhabited α] (src : List α) (n first : Nat)
    (dst : List α) (d : Nat) (hs : first + n ≤ src.length) (hd : d + n ≤ dst.length)
    (j : Nat) :
    (copy_loop src n first dst d).1[j]? =
      if d ≤ j ∧ j < d + n then src[first + (j - d)]? else dst[j]? := by
  induction n generalizing first dst d with
  | zero =>
    have a0 : ¬ (d ≤ j ∧ j < d + 0) := by omega
    rw [if_neg a0]; rfl
  | succ n ih =>
    have h1 := ih (first + 1) (dst.set d (src.getD first default)) (d + 1) (by omega)
      (by rw [List.length_set]; omega)
    simp only [copy_loop]
    rw [h1, List.getElem?_set]
    by_cases hj : d = j
    · subst hj
      have a1 : ¬ (d + 1 ≤ d ∧ d < d + 1 + n) := by omega
      have a2 : d ≤ d ∧ d < d + (n + 1) := by omega
      have a3 : d < dst.length := by omega
      rw [if_neg a1, if_pos a2, if_pos rfl, if_pos a3, Nat.sub_self, Nat.add_zero]
      exact (getD_eq_some src first (by omega)).symm
    · rw [if_neg hj]
      by_cases hr : d + 1 ≤ j ∧ j < d + 1 + n
      · have a2 : d ≤ j ∧ j < d + (n + 1) := by omega
        rw [if_pos hr, if_pos a2]
        congr 1; omega
      · have a2 : ¬ (d ≤ j ∧ j < d + (n + 1)) := by omega
        rw [if_neg hr, if_neg a2]

/-- Moving inside a buffer never changes its number of slots. -/
theorem move_loop_length {α : Type} [Inhabited α] (n first : Nat) (buf : List α)
    (d : Nat) : (move_loop n first buf d).1.length = buf.length := by
  induction n generalizing first buf d with
  | zero => rfl
  | succ n ih => simp [move_loop, ih]

/-- A front-to-back move towards lower indices over allocated slots stays in bounds. -/
theorem move_loop_in_bounds {α : Type} [Inhabited α] (n first : Nat)
    (buf : List α) (d : Nat) (hs : first + n ≤ buf.length) (hd : d ≤ first) :
    (move_loop n first buf d).2 = true := by
  induction n generalizing first buf d with
  | zero => rfl
  | succ n ih =>
    have h1 := ih (first + 1) (buf.set d (buf.getD first default)) (d + 1)
      (by rw [List.length_set]; omega) (by omega)
    simp only [move_loop, h1, Bool.and_true, Bool.and_eq_true, decide_eq_true_eq]
    omega

/-- Slot by slot, a front-to-back move towards lower indices puts the old
`buf[first + k]` at `buf[d + k]` for `k < n` and leaves every other slot alone. -/
theorem move_loop_getElem? {α : Type} [Inhabited α] (n first : Nat)
    (buf : List α) (d : Nat) (hs : first + n ≤ buf.length) (hd : d < first)
    (j : Nat) :
    (move_loop n first buf d).1[j]? =
      if d ≤ j ∧ j < d + n then buf[first + (j - d)]? else buf[j]? := by
  induction n generalizing first buf d with
  | zero =>
    have a0 : ¬ (d ≤ j ∧ j < d + 0) := by omega
    rw [if_neg a0]; rfl
  | succ n ih =>
    have h1 := ih (first + 1) (buf.set d (buf.getD first default)) (d + 1)
      (by rw [List.length_set]; omega) (by omega)
    simp only [move_loop]
    rw [h1]
    by_cases hj : d = j
    · subst hj
      have a1 : ¬ (d + 1 ≤ d ∧ d < d + 1 + n) := by omega
      have a2 : d ≤ d ∧ d < d + (n + 1) := by omega
      have a3 : d < buf.length := by omega
      rw [if_neg a1, if_pos a2, List.getElem?_set, if_pos rfl, if_pos a3, Nat.sub_self,
        Nat.add_zero]
      exact (getD_eq_some buf first (by omega)).symm
    · by_cases hr : d + 1 ≤ j ∧ j < d + 1 + n
      · have a2 : d ≤ j ∧ j < d + (n + 1) := by omega
        have a4 : ¬ (d = first + 1 + (j - (d + 1))) := by omega
        rw [if_pos hr, if_pos a2, List.getElem?_set, if_neg a4]
        congr 1; omega
      · have a2 : ¬ (d ≤ j ∧ j < d + (n + 1)) := by omega
        rw [if_neg hr, if_neg a2, List.getElem?_set, if_neg hj]

/-- Storing into slot `n` and reading `n + 1` slots appends to the first `n` slots. -/
theorem take_set_succ {α : Type} (l : List α) (n : Nat) (x : α) (h : n < l.length) :
    (l.set n x).take (n + 1) = l.take n ++ [x] := by
  induction l generalizing n with
  | nil => simp at h
  | cons a t ih =>
    cases n with
    | zero => simp
    | succ n =>
      have h1 : n < t.length := by simpa using h
      simp [List.set, ih n h1]

/-- Storing into slot `n` does not change the first `k ≤ n` slots. -/
theorem take_set_of_le {α : Type} (l : List α) (n k : Nat) (x : α) (h : k ≤ n) :
    (l.set n x).take k = l.take k := by
  apply List.ext_getElem?
  intro j
  simp only [List.getElem?_take, List.getElem?_set]
  by_cases hj : j < k
  · have : ¬ n = j := by omega
    simp [hj, this]
  · simp [hj]

/-- Copying the first `n` slots of `src` over the first `n` slots of `dst`. -/
theorem std_copy_prefix_fst {α : Type} [Inhabited α] (src dst : List α) (n : Nat)
    (hs : n ≤ src.length) (hd : n ≤ dst.length) :
    (std_copy src 0 n dst 0).1 = src.take n ++ dst.drop n := by
  apply List.ext_getElem?
  intro j
  simp only [std_copy, Nat.sub_zero]
  rw [copy_loop_getElem? src n 0 dst 0 (by omega) (by omega) j]
  have hl : (List.take n src).length = n := by simp [hs]
  rw [List.getElem?_append, hl]
  by_cases hj : j < n
  · have a1 : 0 ≤ j ∧ j < 0 + n := by omega
    rw [if_pos a1, if_pos hj, List.getElem?_take, if_pos hj]
    simp
  · have a1 : ¬ (0 ≤ j ∧ j < 0 + n) := by omega
    rw [if_neg a1, if_neg hj, List.getElem?_drop]
    congr 1; omega

/-- Copying the first `n` slots stays in bounds when both buffers have them. -/
theorem std_copy_prefix_snd {α : Type} [Inhabited α] (src dst : List α) (n : Nat)
    (hs : n ≤ src.length) (hd : n ≤ dst.length) :
    (std_copy src 0 n dst 0).2 = true := by
  simp only [std_copy, Nat.sub_zero]
  rw [copy_loop_in_bounds src n 0 dst 0 (by omega) (by omega)]
  simp

/-- The call `std::copy` keeps the number of slots of the destination. -/
theorem std_copy_length {α : Type} [Inhabited α] (src dst : List α) (first last d : Nat) :
    (std_copy src first last dst d).1.length = dst.length := by
  simp [std_copy, copy_loop_length]

/-- A fresh buffer has as many slots as were asked for. -/
theorem alloc_length {α : Type} [Inhabited α] (n : Nat) :
    (ArrayPtr.alloc n : ArrayPtr α).length = n := by
  simp [ArrayPtr.alloc]


/-! ## Lemmas on the operations -/

/-- With moving modelled as copying, both `PushBack` overloads are the same function. -/
theorem PushBack_move_eq {α : Type} [Inhabited α] (v : SimpleVector α) (item : α) :
    v.PushBack_move item = v.PushBack item := rfl

/-- The counters after `PushBack`, for a representable doubled capacity. -/
theorem PushBack_counters {α : Type} [Inhabited α] (v : SimpleVector α) (item : α)
    (hcap : v.size_ ≤ v.capacity_) (hmax : 2 * v.capacity_ < SIZE_MOD) :
    (v.PushBack item).vec.size_ = v.size_ + 1 ∧
    (v.PushBack item).vec.capacity_ =
      if v.size_ < v.capacity_ then v.capacity_
      else if 0 < v.capacity_ then 2 * v.capacity_ else 1 := by
  have hM : SIZE_MOD = 2 ^ 64 := rfl
  unfold SimpleVector.PushBack
  by_cases h1 : v.capacity_ > v.size_
  · have h1' : v.size_ < v.capacity_ := h1
    rw [if_pos h1, if_pos h1']
    refine ⟨?_, rfl⟩
    show (v.size_ + 1) % SIZE_MOD = v.size_ + 1
    exact Nat.mod_eq_of_lt (by omega)
  · have h1' : ¬ v.size_ < v.capacity_ := h1
    rw [if_neg h1, if_neg h1']
    by_cases h2 : v.capacity_ > 0
    · have h2' : 0 < v.capacity_ := h2
      rw [if_pos h2, if_pos h2']
      refine ⟨?_, ?_⟩
      · show (v.size_ + 1) % SIZE_MOD = v.size_ + 1
        exact Nat.mod_eq_of_lt (by omega)
      · show v.capacity_ * 2 % SIZE_MOD = 2 * v.capacity_
        rw [Nat.mod_eq_of_lt (by omega)]; omega
    · have h2' : ¬ 0 < v.capacity_ := h2
      rw [if_neg h2, if_neg h2']
      refine ⟨?_, ?_⟩
      · show (v.size_ + 1) % SIZE_MOD = v.size_ + 1
        exact Nat.mod_eq_of_lt (by omega)
      · show (v.capacity_ + 1) % SIZE_MOD = 1
        have : v.capacity_ = 0 := by omega
        rw [this]; rfl

/-- Buffers that agree on their first `n` slots agree at every index below `n`. -/
theorem getElem?_of_take_eq {α : Type} (X buf : List α) (n j : Nat)
    (h : X.take n = buf.take n) (hj : j < n) : X[j]? = buf[j]? := by
  have h1 : (X.take n)[j]? = (buf.take n)[j]? := by rw [h]
  simpa [List.getElem?_take, hj] using h1

/-- Writing `item` into slot `n` of a buffer `X` that agrees with `buf` on the
first `n` slots, and counting `n + 1` elements. -/
theorem store_at_size {α : Type} (X buf : List α) (n : Nat) (item : α)
    (h : X.take n = buf.take n) (hn : n < X.length) :
    (X.set n item).take (n + 1) = buf.take n ++ [item] ∧
    (∀ j, j < n → (X.set n item)[j]? = buf[j]?) ∧
    (X.set n item)[n]? = some item := by
  refine ⟨?_, ?_, ?_⟩
  · rw [take_set_succ X n item hn, h]
  · intro j hj
    rw [List.getElem?_set, if_neg (by omega)]
    exact getElem?_of_take_eq X buf n j h hj
  · rw [List.getElem?_set, if_pos rfl, if_pos hn]

/-- Copying `n` elements into a fresh buffer of `m ≥ n` slots keeps these elements. -/
theorem std_copy_alloc_take {α : Type} [Inhabited α] (src : List α) (n m : Nat)
    (hs : n ≤ src.length) (hm : n ≤ m) :
    (std_copy src 0 n (ArrayPtr.alloc m : ArrayPtr α) 0).1.take n = src.take n := by
  rw [std_copy_prefix_fst src _ n hs (by rw [alloc_length]; exact hm)]
  have hl : (List.take n src).length = n := by simp [hs]
  rw [List.take_append_of_le_length (by omega)]
  rw [List.take_of_length_le (by omega)]

/-- The buffer after `PushBack`: some buffer `X` that agrees with the old one on
the first `size_` slots, has as many slots as the new capacity, and then gets
`item` stored at `size_`. -/
theorem PushBack_buffer {α : Type} [Inhabited α] (v : SimpleVector α) (item : α)
    (hbuf : v.simple_vector_.length = v.capacity_) (hcap : v.size_ ≤ v.capacity_)
    (hmax : 2 * v.capacity_ < SIZE_MOD) :
    ∃ X : List α, (v.PushBack item).vec.simple_vector_ = X.set v.size_ item ∧
      X.take v.size_ = v.simple_vector_.take v.size_ ∧ v.size_ < X.length ∧
      X.length = (v.PushBack item).vec.capacity_ ∧
      (v.PushBack item).in_bounds = true := by
  have hM : SIZE_MOD = 2 ^ 64 := rfl
  unfold SimpleVector.PushBack
  by_cases h1 : v.capacity_ > v.size_
  · rw [if_pos h1]
    refine ⟨v.simple_vector_, rfl, rfl, by omega, hbuf, ?_⟩
    simp; omega
  · rw [if_neg h1]
    by_cases h2 : v.capacity_ > 0
    · rw [if_pos h2]
      have e : v.capacity_ * 2 % SIZE_MOD = v.capacity_ * 2 := Nat.mod_eq_of_lt (by omega)
      refine ⟨(std_copy v.simple_vector_ 0 v.size_
        (ArrayPtr.alloc (v.capacity_ * 2 % SIZE_MOD) : ArrayPtr α) 0).1, rfl, ?_, ?_, ?_, ?_⟩
      · exact std_copy_alloc_take _ _ _ (by omega) (by omega)
      · rw [std_copy_length, alloc_length]; omega
      · rw [std_copy_length, alloc_length]
      · show ((std_copy _ _ _ _ _).2 && decide (_ < _)) = true
        rw [std_copy_prefix_snd _ _ _ (by omega) (by rw [alloc_length]; omega),
          std_copy_length, alloc_length]
        simp; omega
    · rw [if_neg h2]
      have hc0 : v.capacity_ = 0 := by omega
      have e : (v.capacity_ + 1) % SIZE_MOD = 1 := by rw [hc0]; rfl
      refine ⟨(std_copy v.simple_vector_ 0 v.size_
        (ArrayPtr.alloc ((v.capacity_ + 1) % SIZE_MOD) : ArrayPtr α) 0).1, rfl, ?_, ?_, ?_, ?_⟩
      · exact std_copy_alloc_take _ _ _ (by omega) (by omega)
      · rw [std_copy_length, alloc_length]; omega
      · rw [std_copy_length, alloc_length]
      · show ((std_copy _ _ _ _ _).2 && decide (_ < _)) = true
        rw [std_copy_prefix_snd _ _ _ (by omega) (by rw [alloc_length]; omega),
          std_copy_length, alloc_length]
        simp; omega

/-- The value of `SIZE_MOD` as a numeral. -/
theorem size_mod_eq : SIZE_MOD = 18446744073709551616 := by
  norm_num [SIZE_MOD]

/-- The `size_t` decrement of a nonzero value does not wrap. -/
theorem size_decrement (n : Nat) (h0 : 0 < n) (h : n < SIZE_MOD) :
    (n + (SIZE_MOD - 1)) % SIZE_MOD = n - 1 := by
  rw [size_mod_eq] at *
  omega

/-- The `std::move` call of `Erase` at an index `i < size`: it stays in bounds,
keeps the buffer length and leaves, in the first `size - 1` slots, the first
`size` slots without slot `i`. -/
theorem std_move_within_shift_left {α : Type} [Inhabited α] (buf : List α) (i size : Nat)
    (hi : i < size) (hs : size ≤ buf.length) :
    (std_move_within buf (i + 1) size i).2 = true ∧
    (std_move_within buf (i + 1) size i).1.length = buf.length ∧
    (std_move_within buf (i + 1) size i).1.take (size - 1) =
      (buf.take size).take i ++ (buf.take size).drop (i + 1) := by
  refine ⟨?_, ?_, ?_⟩
  · simp only [std_move_within]
    rw [move_loop_in_bounds _ _ _ _ (by omega) (by omega)]
    simp; omega
  · simp [std_move_within, move_loop_length]
  · rw [← List.eraseIdx_eq_take_drop_succ]
    apply List.ext_getElem?
    intro j
    simp only [std_move_within]
    rw [List.getElem?_take, List.getElem?_eraseIdx,
      move_loop_getElem? _ _ _ _ (by omega) (by omega) j, List.getElem?_take,
      List.getElem?_take]
    by_cases h1 : j < size - 1
    · rw [if_pos h1]
      by_cases h2 : j < i
      · have a1 : ¬ (i ≤ j ∧ j < i + (size - (i + 1))) := by omega
        rw [if_neg a1, if_pos h2, if_pos (by omega)]
      · have a1 : i ≤ j ∧ j < i + (size - (i + 1)) := by omega
        rw [if_pos a1, if_neg h2, if_pos (by omega)]
        congr 1; omega
    · rw [if_neg h1]
      have h2 : ¬ j < i := by omega
      rw [if_neg h2, if_neg (by omega)]

/-! ## Further facts on `Insert` and `Erase` -/

/-- The shift loop of the copying `Insert` keeps the number of slots. -/
theorem insert_shift_loop_length {α : Type} [Inhabited α] (interval i : Nat) (buf : List α) :
    (insert_shift_loop interval i buf).1.length = buf.length := by
  induction i generalizing buf with
  | zero => rfl
  | succ i ih =>
    unfold insert_shift_loop
    by_cases h : i + 1 > interval
    · rw [if_pos h]; simp [ih]
    · rw [if_neg h]

/-- The shift loop of the copying `Insert`, started at `i` below the number of
slots, stays in bounds. -/
theorem insert_shift_loop_in_bounds {α : Type} [Inhabited α] (interval i : Nat)
    (buf : List α) (hi : i < buf.length) :
    (insert_shift_loop interval i buf).2 = true := by
  induction i generalizing buf with
  | zero => rfl
  | succ i ih =>
    unfold insert_shift_loop
    by_cases h : i + 1 > interval
    · rw [if_pos h]
      have h1 := ih (buf.set (i + 1) (buf.getD i default)) (by rw [List.length_set]; omega)
      simp only [h1, Bool.and_true, Bool.and_eq_true, decide_eq_true_eq]
      omega
    · rw [if_neg h]

/-- Slot by slot, the shift loop of the copying `Insert` puts the old
`buf[j - 1]` at every `j` with `interval < j ≤ i` and leaves the rest alone. -/
theorem insert_shift_loop_getElem? {α : Type} [Inhabited α] (interval i : Nat)
    (buf : List α) (hi : i < buf.length) (j : Nat) :
    (insert_shift_loop interval i buf).1[j]? =
      if interval < j ∧ j ≤ i then buf[j - 1]? else buf[j]? := by
  induction i generalizing buf with
  | zero =>
    have a0 : ¬ (interval < j ∧ j ≤ 0) := by omega
    rw [if_neg a0]; rfl
  | succ i ih =>
    unfold insert_shift_loop
    by_cases h : i + 1 > interval
    · rw [if_pos h]
      have h1 := ih (buf.set (i + 1) (buf.getD i default)) (by rw [List.length_set]; omega)
      show (insert_shift_loop interval i (buf.set (i + 1) (buf.getD i default))).1[j]? = _
      rw [h1]
      by_cases hj : interval < j ∧ j ≤ i
      · have a1 : interval < j ∧ j ≤ i + 1 := by omega
        rw [if_pos hj, if_pos a1, List.getElem?_set, if_neg (by omega)]
      · rw [if_neg hj, List.getElem?_set]
        by_cases hj1 : i + 1 = j
        · subst hj1
          have a1 : interval < i + 1 ∧ i + 1 ≤ i + 1 := by omega
          rw [if_pos rfl, if_pos (by omega), if_pos a1, Nat.add_sub_cancel]
          exact (getD_eq_some buf i (by omega)).symm
        · have a1 : ¬ (interval < j ∧ j ≤ i + 1) := by omega
          rw [if_neg hj1, if_neg a1]
    · rw [if_neg h]
      have a1 : ¬ (interval < j ∧ j ≤ i + 1) := by omega
      rw [if_neg a1]

/-- The copying `Insert` below capacity: for a vector whose buffer has
`capacity_` slots with `size_ < capacity_` and an index `i ≤ size_`,
`Insert(begin() + i, value)` leaves `s[0..i) ++ [value] ++ s[i..size)`, adds one
to `size_`, keeps `capacity_`, returns the position of index `i` and stays
inside the buffer. -/
theorem Insert_below_capacity {α : Type} [Inhabited α] (v : SimpleVector α) (i : Nat)
    (value : α) (hbuf : v.simple_vector_.length = v.capacity_)
    (hlt : v.size_ < v.capacity_) (hmax : v.capacity_ < SIZE_MOD) (hi : i ≤ v.size_) :
    ∃ r, v.Insert (i : Int) value = .ok r ∧
      r.vec.contents = v.contents.take i ++ [value] ++ v.contents.drop i ∧
      r.vec.size_ = v.size_ + 1 ∧
      r.vec.capacity_ = v.capacity_ ∧
      r.ret = i ∧
      r.in_bounds = true := by
  have hg : 0 ≤ (i : Int) ∧ (v.size_ : Int) ≥ (i : Int) :=
    ⟨Int.natCast_nonneg i, by exact_mod_cast hi⟩
  have hne : ¬ v.size_ = v.capacity_ := by omega
  have hsz : (v.size_ + 1) % SIZE_MOD = v.size_ + 1 := Nat.mod_eq_of_lt (by omega)
  have hlen : v.size_ < v.simple_vector_.length := by omega
  refine ⟨_, by unfold SimpleVector.Insert; rw [if_pos hg], ?_, ?_, ?_, ?_, ?_⟩
  · simp only [SimpleVector.contents, Int.toNat_natCast, if_neg hne]
    rw [hsz]
    apply List.ext_getElem?
    intro j
    have hl1 : (List.take i (List.take v.size_ v.simple_vector_)).length = i := by
      simp; omega
    rw [List.getElem?_take, List.getElem?_set, insert_shift_loop_length,
      insert_shift_loop_getElem? _ _ _ hlen, List.append_assoc, List.getElem?_append, hl1,
      List.getElem?_take, List.getElem?_take]
    by_cases h1 : j < i
    · rw [if_pos (by omega), if_neg (by omega), if_neg (by omega), if_pos h1, if_pos h1,
        if_pos (by omega)]
    · rw [if_neg h1]
      by_cases h2 : i = j
      · subst h2
        rw [if_pos (by omega), if_pos rfl, if_pos (by omega), Nat.sub_self]
        simp
      · rw [if_neg h2]
        have h3 : j - i = (j - i - 1) + 1 := by omega
        rw [h3, List.singleton_append, List.getElem?_cons_succ, List.getElem?_drop,
          List.getElem?_take]
        by_cases h4 : j < v.size_ + 1
        · rw [if_pos h4, if_pos (by omega), if_pos (by omega)]
          congr 1; omega
        · rw [if_neg h4, if_neg (by omega)]
  · simp only [if_neg hne]
    exact hsz
  · simp only [if_neg hne]
  · simp only [Int.toNat_natCast]
  · simp only [Int.toNat_natCast, if_neg hne, insert_shift_loop_length,
      insert_shift_loop_in_bounds _ _ _ hlen, Bool.true_and, decide_eq_true_eq]
    omega

/-- The copying `Insert` into a vector with `size_ == capacity_ == 0` (its only
valid position is `begin()`): the vector then holds `[value]` with size 1 and
capacity 1. -/
theorem Insert_into_empty {α : Type} [Inhabited α] (buf : ArrayPtr α) (value : α) :
    ({ simple_vector_ := buf, size_ := 0, capacity_ := 0 } : SimpleVector α).Insert 0 value =
      .ok { vec := { simple_vector_ := [value], size_ := 1, capacity_ := 1 },
            ret := 0, in_bounds := true } := by
  rfl

/-- What `Erase` does with a position outside `[begin(), end()]`: it throws. -/
theorem Erase_outside_throws {α : Type} [Inhabited α] (v : SimpleVector α) (pos : Int)
    (h : pos < 0 ∨ (v.size_ : Int) < pos) :
    v.Erase pos = .error Error.out_of_range := by
  unfold SimpleVector.Erase
  rw [if_neg (by omega)]

/-! ## Lemmas for reserving, resizing, comparing and the moving `Insert` -/

/-- Copying `n` elements into a fresh buffer of `m ≥ n` slots: the copied
elements are followed by `m - n` default values. -/
theorem std_copy_alloc_fst {α : Type} [Inhabited α] (src : List α) (n m : Nat)
    (hs : n ≤ src.length) (hm : n ≤ m) :
    (std_copy src 0 n (ArrayPtr.alloc m : ArrayPtr α) 0).1 =
      src.take n ++ List.replicate (m - n) default := by
  rw [std_copy_prefix_fst src _ n hs (by rw [alloc_length]; exact hm)]
  simp [ArrayPtr.alloc]

/-- Copying `n` elements into a fresh buffer of `m ≥ n` slots stays in bounds. -/
theorem std_copy_alloc_snd {α : Type} [Inhabited α] (src : List α) (n m : Nat)
    (hs : n ≤ src.length) (hm : n ≤ m) :
    (std_copy src 0 n (ArrayPtr.alloc m : ArrayPtr α) 0).2 = true :=
  std_copy_prefix_snd src _ n hs (by rw [alloc_length]; exact hm)

/-- The in-place branch of `PushBack`. -/
theorem PushBack_in_place {α : Type} [Inhabited α] (v : SimpleVector α) (item : α)
    (h : v.size_ < v.capacity_) :
    v.PushBack item =
      { vec := { simple_vector_ := v.simple_vector_.set v.size_ item,
                 size_ := (v.size_ + 1) % SIZE_MOD, capacity_ := v.capacity_ },
        ret := (), in_bounds := decide (v.size_ < v.simple_vector_.length) } := by
  unfold SimpleVector.PushBack
  rw [if_pos h]

/-- Appending a list of items to a vector that has room for all of them: no
call reallocates, the items are appended in order. -/
theorem PushBack_each_with_room {α : Type} [Inhabited α] (xs : List α) (v : SimpleVector α)
    (hbuf : v.simple_vector_.length = v.capacity_)
    (hroom : v.size_ + xs.length ≤ v.capacity_) (hmax : v.capacity_ < SIZE_MOD) :
    (v.PushBack_each xs).vec.capacity_ = v.capacity_ ∧
    (v.PushBack_each xs).vec.simple_vector_.length = v.capacity_ ∧
    (v.PushBack_each xs).vec.size_ = v.size_ + xs.length ∧
    (v.PushBack_each xs).vec.contents = v.contents ++ xs ∧
    (v.PushBack_each xs).in_bounds = true := by
  induction xs generalizing v with
  | nil =>
    simp [SimpleVector.PushBack_each, hbuf]
  | cons x rest ih =>
    have hlen : (x :: rest).length = rest.length + 1 := rfl
    rw [hlen] at hroom
    have hlt : v.size_ < v.capacity_ := by omega
    have hsz : (v.size_ + 1) % SIZE_MOD = v.size_ + 1 := Nat.mod_eq_of_lt (by omega)
    have hp := PushBack_in_place v x hlt
    rw [hsz] at hp
    have h1 := ih { simple_vector_ := v.simple_vector_.set v.size_ x,
                    size_ := v.size_ + 1, capacity_ := v.capacity_ }
      (by simp [hbuf]) (by show v.size_ + 1 + rest.length ≤ v.capacity_; omega) hmax
    have hc : ({ simple_vector_ := v.simple_vector_.set v.size_ x,
                    size_ := v.size_ + 1, capacity_ := v.capacity_ } :
                  SimpleVector α).contents = v.contents ++ [x] := by
      show (v.simple_vector_.set v.size_ x).take (v.size_ + 1) = _
      exact take_set_succ _ _ _ (by omega)
    simp only [SimpleVector.PushBack_each, hp]
    refine ⟨h1.1, h1.2.1, ?_, ?_, ?_⟩
    · rw [h1.2.2.1]; show v.size_ + 1 + rest.length = v.size_ + (rest.length + 1); omega
    · rw [h1.2.2.2.1, hc]; simp
    · rw [h1.2.2.2.2]; simp; omega

/-- The loop of `std::equal` answers `true` exactly when all `n` pairs compare equal. -/
theorem equal_loop_iff {α : Type} [Inhabited α] [BEq α] (b1 b2 : List α) (n first1 first2 : Nat) :
    equal_loop b1 b2 n first1 first2 = true ↔
      ∀ k, k < n → (b1.getD (first1 + k) default == b2.getD (first2 + k) default) = true := by
  induction n generalizing first1 first2 with
  | zero =>
    constructor
    · intro _ k hk
      omega
    · intro _
      rfl
  | succ n ih =>
    unfold equal_loop
    by_cases h : (b1.getD first1 default == b2.getD first2 default) = true
    · rw [if_pos h, ih]
      constructor
      · intro hall k hk
        cases k with
        | zero => simpa using h
        | succ k =>
          have := hall k (by omega)
          have e1 : first1 + (k + 1) = first1 + 1 + k := by omega
          have e2 : first2 + (k + 1) = first2 + 1 + k := by omega
          rw [e1, e2]
          exact this
      · intro hall k hk
        have := hall (k + 1) (by omega)
        have e1 : first1 + (k + 1) = first1 + 1 + k := by omega
        have e2 : first2 + (k + 1) = first2 + 1 + k := by omega
        rw [e1, e2] at this
        exact this
    · rw [if_neg h]
      constructor
      · intro hf
        cases hf
      · intro hall
        exact absurd (by simpa using hall 0 (by omega)) h

/-- The value of `operator==` in terms of the sizes and the slots below the size. -/
theorem operator_eq_iff_slots {α : Type} [Inhabited α] [BEq α] (a b : SimpleVector α) :
    a.operator_eq b = true ↔
      a.size_ = b.size_ ∧
      ∀ i, i < a.size_ →
        (a.simple_vector_.getD i default == b.simple_vector_.getD i default) = true := by
  unfold SimpleVector.operator_eq std_equal
  simp only [Nat.sub_zero]
  by_cases h : a.size_ = b.size_
  · rw [if_neg (by simpa using h), equal_loop_iff]
    simp only [Nat.zero_add]
    constructor
    · intro hall
      exact ⟨h, hall⟩
    · intro hall
      exact hall.2
  · rw [if_pos h]
    constructor
    · intro hf
      cases hf
    · intro hall
      exact absurd hall.1 h

/-- A slot below the size of a vector that holds its elements is an element of
the held sequence. -/
theorem getD_of_contents_eq {α : Type} [Inhabited α] (a c : SimpleVector α)
    (hs : c.size_ = a.size_) (hc : c.contents = a.contents) (i : Nat) (hi : i < a.size_) :
    c.simple_vector_.getD i default = a.simple_vector_.getD i default := by
  have h1 : (c.simple_vector_.take c.size_)[i]? = (a.simple_vector_.take a.size_)[i]? := by
    show c.contents[i]? = a.contents[i]?
    rw [hc]
  rw [List.getElem?_take, List.getElem?_take, if_pos (by omega), if_pos hi] at h1
  rw [List.getD_eq_getElem?_getD, List.getD_eq_getElem?_getD, h1]

/-- Copying backward never changes the number of slots of the destination. -/
theorem copy_backward_loop_length {α : Type} [Inhabited α] (src : List α) (n last : Nat)
    (dst : List α) (d_last : Nat) :
    (copy_backward_loop src n last dst d_last).1.length = dst.length := by
  induction n generalizing last dst d_last with
  | zero => rfl
  | succ n ih =>
    simp only [copy_backward_loop, ih]
    split <;> simp

/-- A backward copy whose source and destination ranges are allocated stays in bounds. -/
theorem copy_backward_loop_in_bounds {α : Type} [Inhabited α] (src : List α) (n last : Nat)
    (dst : List α) (d_last : Nat) (hn1 : n ≤ last) (hl : last ≤ src.length)
    (hn2 : n ≤ d_last) (hd : d_last ≤ dst.length) :
    (copy_backward_loop src n last dst d_last).2 = true := by
  induction n generalizing last dst d_last with
  | zero => rfl
  | succ n ih =>
    have hpos : 0 < d_last := by omega
    have h1 := ih (last - 1) (dst.set (d_last - 1) (src.getD (last - 1) default)) (d_last - 1)
      (by omega) (by omega) (by omega) (by rw [List.length_set]; omega)
    simp only [copy_backward_loop, if_pos hpos, h1, Bool.and_true, Bool.and_eq_true,
      decide_eq_true_eq]
    omega

/-- Slot by slot, an in-bounds backward copy puts the last `n` elements of
`src[..last)` into the last `n` slots of `dst[..d_last)` and leaves every other
slot of `dst` alone. -/
theorem copy_backward_loop_getElem? {α : Type} [Inhabited α] (src : List α) (n last : Nat)
    (dst : List α) (d_last : Nat) (hn1 : n ≤ last) (hl : last ≤ src.length)
    (hn2 : n ≤ d_last) (hd : d_last ≤ dst.length) (j : Nat) :
    (copy_backward_loop src n last dst d_last).1[j]? =
      if d_last - n ≤ j ∧ j < d_last then src[last - (d_last - j)]? else dst[j]? := by
  induction n generalizing last dst d_last with
  | zero =>
    have a0 : ¬ (d_last - 0 ≤ j ∧ j < d_last) := by omega
    rw [if_neg a0]; rfl
  | succ n ih =>
    have hpos : 0 < d_last := by omega
    have h1 := ih (last - 1) (dst.set (d_last - 1) (src.getD (last - 1) default)) (d_last - 1)
      (by omega) (by omega) (by omega) (by rw [List.length_set]; omega)
    simp only [copy_backward_loop, if_pos hpos]
    rw [h1, List.getElem?_set]
    by_cases hj : d_last - 1 = j
    · subst hj
      have a1 : ¬ (d_last - 1 - n ≤ d_last - 1 ∧ d_last - 1 < d_last - 1) := by omega
      have a2 : d_last - (n + 1) ≤ d_last - 1 ∧ d_last - 1 < d_last := by omega
      have e : last - (d_last - (d_last - 1)) = last - 1 := by omega
      rw [if_neg a1, if_pos rfl, if_pos (by omega), if_pos a2, e]
      exact (getD_eq_some src (last - 1) (by omega)).symm
    · rw [if_neg hj]
      by_cases hr : d_last - 1 - n ≤ j ∧ j < d_last - 1
      · have a2 : d_last - (n + 1) ≤ j ∧ j < d_last := by omega
        rw [if_pos hr, if_pos a2]
        congr 1; omega
      · have a2 : ¬ (d_last - (n + 1) ≤ j ∧ j < d_last) := by omega
        rw [if_neg hr, if_neg a2]

/-- A list whose first `n + 1` slots are the first `i` slots of `buf`, then
`value`, then the slots `i .. n` of `buf`, holds the first `n` slots of `buf`
with `value` inserted at index `i`. -/
theorem take_succ_of_inserted {α : Type} (L buf : List α) (n i : Nat) (value : α)
    (hi : i ≤ n) (hn : n ≤ buf.length)
    (h : ∀ j, j < n + 1 →
      L[j]? = if j < i then buf[j]? else if j = i then some value else buf[j - 1]?) :
    L.take (n + 1) = (buf.take n).take i ++ [value] ++ (buf.take n).drop i := by
  apply List.ext_getElem?
  intro j
  have hl1 : (List.take i (List.take n buf)).length = i := by
    simp; omega
  rw [List.getElem?_take, List.append_assoc, List.getElem?_append, hl1, List.getElem?_take,
    List.getElem?_take]
  by_cases h0 : j < n + 1
  · rw [if_pos h0, h j h0]
    by_cases h1 : j < i
    · rw [if_pos h1, if_pos h1, if_pos h1, if_pos (by omega)]
    · rw [if_neg h1, if_neg h1]
      by_cases h2 : j = i
      · subst h2
        rw [if_pos rfl, Nat.sub_self]
        simp
      · have h3 : j - i = (j - i - 1) + 1 := by omega
        rw [if_neg h2, h3, List.singleton_append, List.getElem?_cons_succ, List.getElem?_drop,
          List.getElem?_take, if_pos (by omega)]
        congr 1; omega
  · have h1 : ¬ j < i := by omega
    have h3 : j - i = (j - i - 1) + 1 := by omega
    rw [if_neg h0, if_neg h1, h3, List.singleton_append, List.getElem?_cons_succ,
      List.getElem?_drop, List.getElem?_take, if_neg (by omega)]

/-- A backward copy inside one buffer that moves at least one element and whose
destination ends beyond the last slot leaves the buffer. -/
theorem copy_backward_within_loop_overrun {α : Type} [Inhabited α] (n last : Nat)
    (buf : List α) (d_last : Nat) (hn : 0 < n) (hd : buf.length < d_last) :
    (copy_backward_within_loop n last buf d_last).2 = false := by
  cases n with
  | zero => omega
  | succ n =>
    have h1 : ¬ (d_last - 1 < buf.length) := by omega
    simp [copy_backward_within_loop, h1]

/-! ## Further facts on the ordering operators -/

/-- Over a linear order whose `==` is equality, "less or equal" computed as in
`operator<=` is the negation of the swapped lexicographic comparison, for the
loops started anywhere in the two ranges. -/
theorem lexicographical_compare_loop_total {α : Type} [Inhabited α] [LinearOrder α]
    (b1 b2 : List α) (n1 n2 first1 first2 : Nat) :
    (lexicographical_compare_loop b1 b2 (first2 + n2) n1 first1 first2 ||
      (decide (n1 = n2) && equal_loop b1 b2 n1 first1 first2)) =
    !(lexicographical_compare_loop b2 b1 (first1 + n1) n2 first2 first1) := by
  induction n1 generalizing n2 first1 first2 with
  | zero =>
    cases n2 with
    | zero => simp [lexicographical_compare_loop, equal_loop]
    | succ m => simp [lexicographical_compare_loop, equal_loop]
  | succ k ih =>
    cases n2 with
    | zero => simp [lexicographical_compare_loop, equal_loop]
    | succ m =>
      have e1 : ¬ (first2 = first2 + (m + 1)) := by omega
      have e2 : ¬ (first1 = first1 + (k + 1)) := by omega
      have e3 : first2 + (m + 1) = first2 + 1 + m := by omega
      have e4 : first1 + (k + 1) = first1 + 1 + k := by omega
      have hih := ih m (first1 + 1) (first2 + 1)
      simp only [lexicographical_compare_loop, equal_loop, if_neg e1, if_neg e2]
      generalize b1.getD first1 default = x
      generalize b2.getD first2 default = y
      rcases lt_trichotomy x y with h | h | h
      · have h2 : ¬ (y < x) := not_lt_of_lt h
        rw [if_pos h, if_neg h2, if_pos h]
        rfl
      · have h1 : ¬ (x < y) := by rw [h]; exact lt_irrefl _
        have h2 : ¬ (y < x) := by rw [h]; exact lt_irrefl _
        have h3 : (x == y) = true := by rw [h]; exact beq_self_eq_true y
        rw [if_neg h1, if_neg h2, if_neg h2, if_neg h1, if_pos h3, e3, e4]
        have e5 : decide (k + 1 = m + 1) = decide (k = m) := by simp
        rw [e5]
        exact hih
      · have h1 : ¬ (x < y) := not_lt_of_lt h
        have h3 : ¬ ((x == y) = true) := by
          intro hc
          exact (ne_of_gt h) (beq_iff_eq.mp hc)
        rw [if_neg h1, if_pos h, if_pos h, if_neg h3]
        simp

/-- What `operator>` computes: the swapped `operator<`. -/
theorem operator_gt_eq_swapped_lt {α : Type} [Inhabited α] [LT α]
    [DecidableRel (fun x y : α => x < y)] (a b : SimpleVector α) :
    a.operator_gt b = b.operator_lt a := rfl

/-- What `operator<=` computes over a linear order whose `==` is equality: the
negation of `b < a`. -/
theorem operator_le_eq_not_swapped_lt {α : Type} [Inhabited α] [LinearOrder α]
    (a b : SimpleVector α) : a.operator_le b = !(b.operator_lt a) := by
  have h := lexicographical_compare_loop_total a.simple_vector_ b.simple_vector_ a.size_
    b.size_ 0 0
  simp only [Nat.zero_add] at h
  unfold SimpleVector.operator_le SimpleVector.operator_lt SimpleVector.operator_eq
    std_lexicographical_compare std_equal
  simp only [Nat.sub_zero]
  rw [← h]
  by_cases hs : a.size_ = b.size_
  · simp [hs]
  · simp [hs]

/-- What `operator>=` computes over a linear order whose `==` is equality: the
value of `operator<=` on the same operands. -/
theorem operator_ge_eq_operator_le {α : Type} [Inhabited α] [LinearOrder α]
    (a b : SimpleVector α) : a.operator_ge b = a.operator_le b := by
  rw [operator_le_eq_not_swapped_lt]
  rfl

/-! ## The claims -/

/-- C1: the invariant `size <= capacity` is claimed for every state reached
without an out-of-range error.  On a default-constructed vector `Erase(begin())`
(here `begin() == end()`) passes the guard `begin() <= pos && end() >= pos`, so
nothing is thrown, and `size_--` wraps `size_` from `0` to `2 ^ 64 - 1` while
`capacity_` stays `0`: a reachable state with `size_ > capacity_`. -/
theorem Erase_end_of_empty_breaks_size_le_capacity :
    (SimpleVector.default_ctor : SimpleVector Nat).Erase 0 =
      .ok { vec := { simple_vector_ := [], size_ := 2 ^ 64 - 1, capacity_ := 0 },
            ret := 0, in_bounds := false } ∧
    Reachable ({ simple_vector_ := [], size_ := 2 ^ 64 - 1, capacity_ := 0 } :
      SimpleVector Nat) ∧
    ¬ (({ simple_vector_ := [], size_ := 2 ^ 64 - 1, capacity_ := 0 } :
      SimpleVector Nat).size_ ≤
       ({ simple_vector_ := [], size_ := 2 ^ 64 - 1, capacity_ := 0 } :
      SimpleVector Nat).capacity_) := by
  have h : (SimpleVector.default_ctor : SimpleVector Nat).Erase 0 =
      .ok { vec := { simple_vector_ := [], size_ := 2 ^ 64 - 1, capacity_ := 0 },
            ret := 0, in_bounds := false } := by rfl
  exact ⟨h, Reachable.Erase 0 _ Reachable.default_ctor h, by norm_num⟩

/-- C2: the copying `Insert` on a full vector.  The vector `[1]` (size 1,
capacity 1, built by one `PushBack`) receives `Insert(begin(), 7)`.  The claim
asks for the contents `[7, 1]` with size 2.  The code doubles `size_` before it
copies (`replicator(size_ *= 2)`), so the copy reads past the old buffer, the
shift loop writes past the new one, and the call ends with `size_ == 3`,
`capacity_ == 4` over a buffer of 2 slots. -/
theorem Insert_into_full_vector_evaluates :
    ((SimpleVector.default_ctor : SimpleVector Nat).PushBack 1).vec =
      { simple_vector_ := [1], size_ := 1, capacity_ := 1 } ∧
    ((SimpleVector.default_ctor : SimpleVector Nat).PushBack 1).vec.Insert 0 7 =
      .ok { vec := { simple_vector_ := [7, 1], size_ := 3, capacity_ := 4 },
            ret := 0, in_bounds := false } := by
  exact ⟨rfl, rfl⟩

/-- C3: for a vector whose buffer has `capacity_` slots and an index `i < size_`,
`Erase(begin() + i)` does not throw, leaves the sequence with index `i` removed
(`s[0..i) ++ s[i+1..size)`), decrements `size_`, keeps `capacity_` and the buffer
length, stays inside the buffer, and returns the position of index `i`, which
is the new `end()` when `i` was the last index. -/
theorem Erase_valid_index {α : Type} [Inhabited α] (v : SimpleVector α) (i : Nat)
    (hbuf : v.simple_vector_.length = v.capacity_) (hcap : v.size_ ≤ v.capacity_)
    (hmax : v.size_ < SIZE_MOD) (hi : i < v.size_) :
    ∃ r, v.Erase (i : Int) = .ok r ∧
      r.vec.contents = v.contents.take i ++ v.contents.drop (i + 1) ∧
      r.vec.size_ = v.size_ - 1 ∧
      r.vec.capacity_ = v.capacity_ ∧
      r.vec.simple_vector_.length = v.capacity_ ∧
      r.ret = i ∧
      (i = v.size_ - 1 → r.ret = r.vec.size_) ∧
      r.in_bounds = true := by
  have hg : 0 ≤ (i : Int) ∧ (v.size_ : Int) ≥ (i : Int) := by
    constructor
    · exact Int.natCast_nonneg i
    · exact_mod_cast hi.le
  have hs := std_move_within_shift_left v.simple_vector_ i v.size_ hi (by omega)
  have hd := size_decrement v.size_ (by omega) hmax
  refine ⟨_, by unfold SimpleVector.Erase; rw [if_pos hg], ?_, ?_, rfl, ?_, ?_, ?_, ?_⟩
  · simp only [SimpleVector.contents, Int.toNat_natCast]
    rw [hd]
    exact hs.2.2
  · exact hd
  · simp only [Int.toNat_natCast]
    rw [hs.2.1]; exact hbuf
  · simp only [Int.toNat_natCast]
  · intro h
    simp only [Int.toNat_natCast]
    rw [hd]; exact h
  · simp only [Int.toNat_natCast]
    exact hs.1

/-- Witness for C3: erasing index 1 of `[1, 2, 3]`. -/
theorem Erase_valid_index_witness :
    ([1, 2, 3] : List Nat).length = 3 ∧ 3 ≤ 3 ∧ 3 < SIZE_MOD ∧ 1 < 3 ∧
    ∃ r, ({ simple_vector_ := [1, 2, 3], size_ := 3, capacity_ := 3 } :
        SimpleVector Nat).Erase ((1 : Nat) : Int) = .ok r ∧
      r.vec.contents = [1, 3] ∧ r.vec.size_ = 2 ∧ r.vec.capacity_ = 3 ∧
      r.vec.simple_vector_.length = 3 ∧ r.ret = 1 ∧ ((1 : Nat) = 3 - 1 → r.ret = r.vec.size_) ∧
      r.in_bounds = true :=
  ⟨rfl, by decide, by norm_num [SIZE_MOD], by decide,
    Erase_valid_index { simple_vector_ := [1, 2, 3], size_ := 3, capacity_ := 3 } 1 rfl
      (by decide) (by norm_num [SIZE_MOD]) (by decide)⟩

/-- C4: the claim wants `Erase(end())` to throw out-of-range and change nothing.
The guard of `Erase` is `end() >= pos`, so for every vector the position
`end()` is accepted: the call returns normally, hands the inverted range
`[end() + 1, end())` to `std::move` and decrements `size_` modulo `2 ^ 64`. -/
theorem Erase_at_end_is_accepted {α : Type} [Inhabited α] (v : SimpleVector α) :
    v.Erase (v.size_ : Int) =
      .ok { vec := { simple_vector_ := v.simple_vector_,
                     size_ := (v.size_ + (SIZE_MOD - 1)) % SIZE_MOD,
                     capacity_ := v.capacity_ },
            ret := v.size_, in_bounds := false } ∧
    v.Erase (v.size_ : Int) ≠ .error Error.out_of_range := by
  have h : v.Erase (v.size_ : Int) =
      .ok { vec := { simple_vector_ := v.simple_vector_,
                     size_ := (v.size_ + (SIZE_MOD - 1)) % SIZE_MOD,
                     capacity_ := v.capacity_ },
            ret := v.size_, in_bounds := false } := by
    simp [SimpleVector.Erase, std_move_within, move_loop]
  refine ⟨h, ?_⟩
  rw [h]
  intro hc
  cases hc

/-- C5: for a vector with `size_ <= capacity_` (and a capacity whose double is a
`size_t`), both `PushBack` overloads set the capacity to `2c` when
`size_ == capacity_ == c > 0`, to `1` when `size_ == capacity_ == 0`, leave it
unchanged when `size_ < capacity_`, and always increase `size_` by one. -/
theorem PushBack_growth {α : Type} [Inhabited α] (v : SimpleVector α) (item : α)
    (hcap : v.size_ ≤ v.capacity_) (hmax : 2 * v.capacity_ < SIZE_MOD) :
    ((v.size_ = v.capacity_ ∧ 0 < v.capacity_ →
        (v.PushBack item).vec.capacity_ = 2 * v.capacity_) ∧
     (v.size_ = v.capacity_ ∧ v.capacity_ = 0 → (v.PushBack item).vec.capacity_ = 1) ∧
     (v.size_ < v.capacity_ → (v.PushBack item).vec.capacity_ = v.capacity_) ∧
     (v.PushBack item).vec.size_ = v.size_ + 1) ∧
    ((v.size_ = v.capacity_ ∧ 0 < v.capacity_ →
        (v.PushBack_move item).vec.capacity_ = 2 * v.capacity_) ∧
     (v.size_ = v.capacity_ ∧ v.capacity_ = 0 →
        (v.PushBack_move item).vec.capacity_ = 1) ∧
     (v.size_ < v.capacity_ → (v.PushBack_move item).vec.capacity_ = v.capacity_) ∧
     (v.PushBack_move item).vec.size_ = v.size_ + 1) := by
  have h := PushBack_counters v item hcap hmax
  have key : (v.size_ = v.capacity_ ∧ 0 < v.capacity_ →
        (v.PushBack item).vec.capacity_ = 2 * v.capacity_) ∧
     (v.size_ = v.capacity_ ∧ v.capacity_ = 0 → (v.PushBack item).vec.capacity_ = 1) ∧
     (v.size_ < v.capacity_ → (v.PushBack item).vec.capacity_ = v.capacity_) ∧
     (v.PushBack item).vec.size_ = v.size_ + 1 := by
    refine ⟨?_, ?_, ?_, h.1⟩
    · rintro ⟨h1, h2⟩
      rw [h.2, if_neg (by omega), if_pos h2]
    · rintro ⟨h1, h2⟩
      rw [h.2, if_neg (by omega), if_neg (by omega)]
    · intro h1
      rw [h.2, if_pos h1]
  refine ⟨key, ?_⟩
  rw [PushBack_move_eq]
  exact key

/-- Witness for C5: appending to the full vector `[1]`. -/
theorem PushBack_growth_witness :
    (1 ≤ 1 ∧ 2 * 1 < SIZE_MOD) ∧
    (({ simple_vector_ := [1], size_ := 1, capacity_ := 1 } :
        SimpleVector Nat).PushBack 5).vec.capacity_ = 2 * 1 ∧
    (({ simple_vector_ := [1], size_ := 1, capacity_ := 1 } :
        SimpleVector Nat).PushBack 5).vec.size_ = 1 + 1 :=
  ⟨⟨by decide, by norm_num [SIZE_MOD]⟩,
   (PushBack_growth { simple_vector_ := [1], size_ := 1, capacity_ := 1 } 5 (by decide)
      (by norm_num [SIZE_MOD])).1.1 ⟨rfl, by decide⟩,
   (PushBack_growth { simple_vector_ := [1], size_ := 1, capacity_ := 1 } 5 (by decide)
      (by norm_num [SIZE_MOD])).1.2.2.2⟩

/-- C6: for a vector whose buffer has `capacity_` slots and `size_ <= capacity_`,
`PushBack(item)` leaves the sequence `s ++ [item]`: every element below the old
size is unchanged, the element at the old size is `item`, with or without a
reallocation, and no access leaves the buffer. -/
theorem PushBack_appends {α : Type} [Inhabited α] (v : SimpleVector α) (item : α)
    (hbuf : v.simple_vector_.length = v.capacity_) (hcap : v.size_ ≤ v.capacity_)
    (hmax : 2 * v.capacity_ < SIZE_MOD) :
    (v.PushBack item).vec.contents = v.contents ++ [item] ∧
    (∀ j, j < v.size_ → (v.PushBack item).vec.index j = v.index j) ∧
    (v.PushBack item).vec.index v.size_ = some item ∧
    (v.PushBack item).in_bounds = true := by
  obtain ⟨X, hX, ht, hl, _, hb⟩ := PushBack_buffer v item hbuf hcap hmax
  have hs := (PushBack_counters v item hcap hmax).1
  have hst := store_at_size X v.simple_vector_ v.size_ item ht hl
  refine ⟨?_, ?_, ?_, hb⟩
  · show (v.PushBack item).vec.simple_vector_.take (v.PushBack item).vec.size_ = _
    rw [hX, hs]
    exact hst.1
  · intro j hj
    show (v.PushBack item).vec.simple_vector_[j]? = v.simple_vector_[j]?
    rw [hX]
    exact hst.2.1 j hj
  · show (v.PushBack item).vec.simple_vector_[v.size_]? = some item
    rw [hX]
    exact hst.2.2

/-- Witness for C6: appending `5` to the full vector `[1, 2]`. -/
theorem PushBack_appends_witness :
    (([1, 2] : List Nat).length = 2 ∧ 2 ≤ 2 ∧ 2 * 2 < SIZE_MOD) ∧
    (({ simple_vector_ := [1, 2], size_ := 2, capacity_ := 2 } :
        SimpleVector Nat).PushBack 5).vec.contents =
      ({ simple_vector_ := [1, 2], size_ := 2, capacity_ := 2 } :
        SimpleVector Nat).contents ++ [5] :=
  ⟨⟨rfl, by decide, by norm_num [SIZE_MOD]⟩,
   (PushBack_appends { simple_vector_ := [1, 2], size_ := 2, capacity_ := 2 } 5 rfl
      (by decide) (by norm_num [SIZE_MOD])).1⟩

/-- C7: the copying `Insert` on a full vector is claimed to double the capacity.
The vector `[1, 2]` (size 2, capacity 2, built by two `PushBack` calls)
receives `Insert(begin() + 1, 7)`: the code first doubles `size_` and then sets
`capacity_ = size_ * 2`, so the capacity becomes `8`, not `4`, over a buffer of
4 slots, and `size_` becomes `5`. -/
theorem Insert_into_full_vector_quadruples_capacity :
    (((SimpleVector.default_ctor : SimpleVector Nat).PushBack 1).vec.PushBack 2).vec =
      { simple_vector_ := [1, 2], size_ := 2, capacity_ := 2 } ∧
    (((SimpleVector.default_ctor : SimpleVector Nat).PushBack 1).vec.PushBack 2).vec.Insert
        1 7 =
      .ok { vec := { simple_vector_ := [1, 7, 2, 0], size_ := 5, capacity_ := 8 },
            ret := 1, in_bounds := false } := by
  exact ⟨rfl, rfl⟩

/-- C8: `At(index)` throws out-of-range exactly when `index >= size_`; for
`index < size_` it returns the slot that `operator[]` reads, which is the
element of the held sequence at that index, and an element really exists there
when the buffer has at least `size_` slots.  `At` computes a value only: the
vector is not changed. -/
theorem At_checked {α : Type} (v : SimpleVector α) (index : Nat) :
    (v.At index = .error Error.out_of_range ↔ index ≥ v.size_) ∧
    (index < v.size_ →
      v.At index = .ok (v.index index) ∧ v.index index = v.contents[index]?) ∧
    (index < v.size_ → v.size_ ≤ v.simple_vector_.length →
      ∃ x, v.At index = .ok (some x) ∧ v.contents[index]? = some x) := by
  have hlt : ∀ h : index < v.size_, v.At index = .ok (v.simple_vector_[index]?) := by
    intro h
    unfold SimpleVector.At
    rw [if_neg (by omega)]
  refine ⟨?_, ?_, ?_⟩
  · constructor
    · intro h
      by_contra hc
      rw [hlt (by omega)] at h
      cases h
    · intro h
      unfold SimpleVector.At
      rw [if_pos h]
  · intro h
    refine ⟨hlt h, ?_⟩
    show v.simple_vector_[index]? = (v.simple_vector_.take v.size_)[index]?
    rw [List.getElem?_take, if_pos h]
  · intro h hl
    have hi : index < v.simple_vector_.length := by omega
    refine ⟨v.simple_vector_[index], ?_, ?_⟩
    · rw [hlt h, List.getElem?_eq_getElem hi]
    · show (v.simple_vector_.take v.size_)[index]? = _
      rw [List.getElem?_take, if_pos h, List.getElem?_eq_getElem hi]

/-- Witness for C8: reading index 1 of `[4, 5, 6]`. -/
theorem At_checked_witness :
    (1 < 3 ∧ 3 ≤ ([4, 5, 6] : List Nat).length) ∧
    ∃ x, ({ simple_vector_ := [4, 5, 6], size_ := 3, capacity_ := 3 } :
        SimpleVector Nat).At 1 = .ok (some x) ∧
      ({ simple_vector_ := [4, 5, 6], size_ := 3, capacity_ := 3 } :
        SimpleVector Nat).contents[1]? = some x :=
  ⟨⟨by decide, by decide⟩,
   (At_checked { simple_vector_ := [4, 5, 6], size_ := 3, capacity_ := 3 } 1).2.2
     (by decide) (by decide)⟩

/-- C9: the copy of a vector with `size_ < capacity_`.  The source is built by
`SimpleVector(Reserve(2))` and `PushBack(1)` (size 1, capacity 2).  The claim
gives the copy the capacity 1, the source's size.  The copy constructor
allocates 1 slot but stores `capacity_ = other.capacity_`, so the copy has
`capacity_ == 2` over a buffer of 1 slot. -/
theorem copy_ctor_keeps_source_capacity :
    ((SimpleVector.reserve_ctor 2 : Outcome Nat Unit).vec.PushBack 1).vec =
      { simple_vector_ := [1, 0], size_ := 1, capacity_ := 2 } ∧
    SimpleVector.copy_ctor
        ((SimpleVector.reserve_ctor 2 : Outcome Nat Unit).vec.PushBack 1).vec =
      { vec := { simple_vector_ := [1], size_ := 1, capacity_ := 2 },
        ret := (), in_bounds := true } := by
  exact ⟨rfl, rfl⟩

/-- C10: moving from the vector `[1]` (size 1, capacity 1, built by one
`PushBack`).  The new vector holds `[1]` with size 1, as claimed, and the source
has size 0; but the source keeps `capacity_ == 1` (over a fresh buffer of 1
slot) where the claim says capacity 0: `other.Clear()` only resets `size_`. -/
theorem move_ctor_leaves_source_capacity :
    SimpleVector.move_ctor ((SimpleVector.default_ctor : SimpleVector Nat).PushBack 1).vec =
      ({ simple_vector_ := [1], size_ := 1, capacity_ := 1 },
       { simple_vector_ := [0], size_ := 0, capacity_ := 1 }) := by
  rfl

/-- C11: for a vector that holds `size_` elements with `size_ <= capacity_`:
when `n > capacity_`, `Reserve(n)` sets the capacity to exactly `n` over a new
buffer of `n` slots and keeps `size_` and the elements in order; when
`n <= capacity_` it changes nothing.  So the capacity afterwards is
`max(capacity_, n)` and never decreases. -/
theorem Reserve_sets_capacity {α : Type} [Inhabited α] (v : SimpleVector α) (n : Nat)
    (hcap : v.size_ ≤ v.capacity_) (hbuf : v.size_ ≤ v.simple_vector_.length) :
    (n > v.capacity_ →
      (v.Reserve n).vec.capacity_ = n ∧
      (v.Reserve n).vec.size_ = v.size_ ∧
      (v.Reserve n).vec.contents = v.contents ∧
      (v.Reserve n).vec.simple_vector_.length = n ∧
      (v.Reserve n).in_bounds = true) ∧
    (n ≤ v.capacity_ → v.Reserve n = { vec := v, ret := (), in_bounds := true }) ∧
    (v.Reserve n).vec.capacity_ = max v.capacity_ n ∧
    v.capacity_ ≤ (v.Reserve n).vec.capacity_ := by
  have hgt : n > v.capacity_ → v.Reserve n =
      { vec := { simple_vector_ :=
                   (std_copy v.simple_vector_ 0 v.size_ (ArrayPtr.alloc n : ArrayPtr α) 0).1,
                 size_ := v.size_, capacity_ := n },
        ret := (),
        in_bounds :=
          (std_copy v.simple_vector_ 0 v.size_ (ArrayPtr.alloc n : ArrayPtr α) 0).2 } := by
    intro h
    unfold SimpleVector.Reserve
    rw [if_pos h]
  have hle : n ≤ v.capacity_ → v.Reserve n = { vec := v, ret := (), in_bounds := true } := by
    intro h
    unfold SimpleVector.Reserve
    rw [if_neg (by omega)]
  refine ⟨?_, hle, ?_, ?_⟩
  · intro h
    rw [hgt h]
    refine ⟨rfl, rfl, ?_, ?_, ?_⟩
    · exact std_copy_alloc_take v.simple_vector_ v.size_ n hbuf (by omega)
    · show (std_copy _ _ _ _ _).1.length = n
      rw [std_copy_length, alloc_length]
    · exact std_copy_alloc_snd v.simple_vector_ v.size_ n hbuf (by omega)
  · by_cases h : n > v.capacity_
    · rw [hgt h]
      show n = max v.capacity_ n
      omega
    · rw [hle (by omega)]
      show v.capacity_ = max v.capacity_ n
      omega
  · by_cases h : n > v.capacity_
    · rw [hgt h]
      show v.capacity_ ≤ n
      omega
    · rw [hle (by omega)]

/-- Witness for C11: `Reserve(5)` on `[1, 2]` with capacity 3. -/
theorem Reserve_sets_capacity_witness :
    ((2 ≤ 3 ∧ 2 ≤ ([1, 2, 0] : List Nat).length) ∧ 5 > 3) ∧
    (({ simple_vector_ := [1, 2, 0], size_ := 2, capacity_ := 3 } :
        SimpleVector Nat).Reserve 5).vec.capacity_ = 5 ∧
    (({ simple_vector_ := [1, 2, 0], size_ := 2, capacity_ := 3 } :
        SimpleVector Nat).Reserve 5).vec.size_ = 2 ∧
    (({ simple_vector_ := [1, 2, 0], size_ := 2, capacity_ := 3 } :
        SimpleVector Nat).Reserve 5).vec.contents = [1, 2] ∧
    (({ simple_vector_ := [1, 2, 0], size_ := 2, capacity_ := 3 } :
        SimpleVector Nat).Reserve 5).vec.simple_vector_.length = 5 ∧
    (({ simple_vector_ := [1, 2, 0], size_ := 2, capacity_ := 3 } :
        SimpleVector Nat).Reserve 5).in_bounds = true :=
  ⟨⟨⟨by decide, by decide⟩, by decide⟩,
   (Reserve_sets_capacity { simple_vector_ := [1, 2, 0], size_ := 2, capacity_ := 3 } 5
      (by decide) (by decide)).1 (by decide)⟩

/-- C12: `Resize(n)` with `size < n < capacity` is claimed to make every element
at an index in `[old size, n)` the default value.  The vector is built by
`PushBack(1)`, `PushBack(2)`, `PushBack(3)`, `PopBack()`: size 2, capacity 4,
slots `[1, 2, 3, 0]` with the popped `3` left in slot 2.  `Resize(3)` runs the
loop from `begin() + new_size` down to `end()` exclusive, so it writes slot 3
and never slot 2: the new element at index 2 is the stale `3`, not `0`. -/
theorem Resize_within_capacity_keeps_stale_slot :
    ((((SimpleVector.default_ctor : SimpleVector Nat).PushBack 1).vec.PushBack 2).vec.PushBack
        3).vec.PopBack =
      { simple_vector_ := [1, 2, 3, 0], size_ := 2, capacity_ := 4 } ∧
    Reachable ({ simple_vector_ := [1, 2, 3, 0], size_ := 2, capacity_ := 4 } :
      SimpleVector Nat) ∧
    ({ simple_vector_ := [1, 2, 3, 0], size_ := 2, capacity_ := 4 } :
        SimpleVector Nat).Resize 3 =
      { vec := { simple_vector_ := [1, 2, 3, 0], size_ := 3, capacity_ := 4 },
        ret := (), in_bounds := true } ∧
    (({ simple_vector_ := [1, 2, 3, 0], size_ := 2, capacity_ := 4 } :
        SimpleVector Nat).Resize 3).vec.index 2 = some 3 ∧
    (3 : Nat) ≠ default := by
  have h : ((((SimpleVector.default_ctor : SimpleVector Nat).PushBack 1).vec.PushBack
        2).vec.PushBack 3).vec.PopBack =
      { simple_vector_ := [1, 2, 3, 0], size_ := 2, capacity_ := 4 } := rfl
  refine ⟨h, ?_, rfl, rfl, by decide⟩
  rw [← h]
  exact Reachable.PopBack (Reachable.PushBack 3 (Reachable.PushBack 2
    (Reachable.PushBack 1 Reachable.default_ctor)))

/-- C13: for a vector that holds `size_` elements: when `n > size_` and
`n >= capacity_` (with `2 * n` a `size_t`), `Resize(n)` sets the size to `n` and
the capacity to `2 * n`, keeps the old elements in order and makes every
element at an index in `[old size, n)` the default value; when `n <= size_` it
only sets the size to `n`, so the capacity and the first `n` elements stay. -/
theorem Resize_grow_or_truncate {α : Type} [Inhabited α] (v : SimpleVector α) (n : Nat)
    (hbuf : v.size_ ≤ v.simple_vector_.length) :
    (n > v.size_ → n ≥ v.capacity_ → 2 * n < SIZE_MOD →
      (v.Resize n).vec.size_ = n ∧
      (v.Resize n).vec.capacity_ = 2 * n ∧
      (v.Resize n).vec.contents = v.contents ++ List.replicate (n - v.size_) default ∧
      (∀ j, j < v.size_ → (v.Resize n).vec.index j = v.index j) ∧
      (∀ j, v.size_ ≤ j → j < n → (v.Resize n).vec.index j = some default) ∧
      (v.Resize n).in_bounds = true) ∧
    (n ≤ v.size_ →
      v.Resize n = { vec := { simple_vector_ := v.simple_vector_, size_ := n,
                              capacity_ := v.capacity_ },
                     ret := (), in_bounds := true } ∧
      (v.Resize n).vec.contents = v.contents.take n) := by
  constructor
  · intro h1 h2 h3
    have hr : v.Resize n =
        { vec := { simple_vector_ :=
                     (std_copy v.simple_vector_ 0 v.size_ (ArrayPtr.alloc n : ArrayPtr α) 0).1,
                   size_ := n, capacity_ := n * 2 % SIZE_MOD },
          ret := (),
          in_bounds :=
            (std_copy v.simple_vector_ 0 v.size_ (ArrayPtr.alloc n : ArrayPtr α) 0).2 } := by
      unfold SimpleVector.Resize
      rw [if_neg (by omega), if_neg (by omega)]
    have hb := std_copy_alloc_fst v.simple_vector_ v.size_ n hbuf (by omega)
    have hl : (List.take v.size_ v.simple_vector_).length = v.size_ := by simp [hbuf]
    rw [hr]
    refine ⟨rfl, ?_, ?_, ?_, ?_, ?_⟩
    · show n * 2 % SIZE_MOD = 2 * n
      rw [Nat.mod_eq_of_lt (by omega)]; omega
    · show (std_copy _ _ _ _ _).1.take n = v.simple_vector_.take v.size_ ++ _
      rw [hb]
      apply List.take_of_length_le
      simp [hl]; omega
    · intro j hj
      show (std_copy _ _ _ _ _).1[j]? = v.simple_vector_[j]?
      rw [hb, List.getElem?_append_left (by omega), List.getElem?_take, if_pos hj]
    · intro j hj1 hj2
      show (std_copy _ _ _ _ _).1[j]? = some default
      rw [hb, List.getElem?_append_right (by omega), List.getElem?_replicate, hl,
        if_pos (by omega)]
    · exact std_copy_alloc_snd v.simple_vector_ v.size_ n hbuf (by omega)
  · intro h
    have hr : v.Resize n =
        { vec := { simple_vector_ := v.simple_vector_, size_ := n, capacity_ := v.capacity_ },
          ret := (), in_bounds := true } := by
      unfold SimpleVector.Resize
      rw [if_pos h]
    refine ⟨hr, ?_⟩
    rw [hr]
    show v.simple_vector_.take n = (v.simple_vector_.take v.size_).take n
    rw [List.take_take, Nat.min_eq_left h]

/-- Witness for C13: `Resize(3)` on the full vector `[1, 2]`. -/
theorem Resize_grow_or_truncate_witness :
    (2 ≤ ([1, 2] : List Nat).length ∧ 3 > 2 ∧ 3 ≥ 2 ∧ 2 * 3 < SIZE_MOD) ∧
    (({ simple_vector_ := [1, 2], size_ := 2, capacity_ := 2 } :
        SimpleVector Nat).Resize 3).vec.size_ = 3 ∧
    (({ simple_vector_ := [1, 2], size_ := 2, capacity_ := 2 } :
        SimpleVector Nat).Resize 3).vec.capacity_ = 2 * 3 ∧
    (({ simple_vector_ := [1, 2], size_ := 2, capacity_ := 2 } :
        SimpleVector Nat).Resize 3).vec.contents = [1, 2, 0] :=
  ⟨⟨by decide, by decide, by decide, by norm_num [SIZE_MOD]⟩,
   ((Resize_grow_or_truncate { simple_vector_ := [1, 2], size_ := 2, capacity_ := 2 } 3
      (by decide)).1 (by decide) (by decide) (by norm_num [SIZE_MOD])).1,
   ((Resize_grow_or_truncate { simple_vector_ := [1, 2], size_ := 2, capacity_ := 2 } 3
      (by decide)).1 (by decide) (by decide) (by norm_num [SIZE_MOD])).2.1,
   ((Resize_grow_or_truncate { simple_vector_ := [1, 2], size_ := 2, capacity_ := 2 } 3
      (by decide)).1 (by decide) (by decide) (by norm_num [SIZE_MOD])).2.2.1⟩

/-- C14: for a vector whose buffer has `capacity_ == c` slots, `Clear()` sets the
size to 0 and keeps the capacity and the buffer; `k <= c` calls of `PushBack`
after it keep the capacity `c` and the buffer length (no reallocation), stay
inside the buffer, and give a vector of size `k` that holds exactly the pushed
values in order. -/
theorem Clear_then_PushBack {α : Type} [Inhabited α] (v : SimpleVector α) (xs : List α)
    (hbuf : v.simple_vector_.length = v.capacity_) (hmax : v.capacity_ < SIZE_MOD)
    (hk : xs.length ≤ v.capacity_) :
    v.Clear.size_ = 0 ∧
    v.Clear.capacity_ = v.capacity_ ∧
    v.Clear.simple_vector_ = v.simple_vector_ ∧
    (v.Clear.PushBack_each xs).vec.capacity_ = v.capacity_ ∧
    (v.Clear.PushBack_each xs).vec.simple_vector_.length = v.capacity_ ∧
    (v.Clear.PushBack_each xs).vec.size_ = xs.length ∧
    (v.Clear.PushBack_each xs).vec.contents = xs ∧
    (v.Clear.PushBack_each xs).in_bounds = true := by
  have h := PushBack_each_with_room xs v.Clear hbuf
    (by show 0 + xs.length ≤ v.capacity_; omega) hmax
  refine ⟨rfl, rfl, rfl, h.1, h.2.1, ?_, ?_, h.2.2.2.2⟩
  · rw [h.2.2.1]
    show 0 + xs.length = xs.length
    omega
  · rw [h.2.2.2.1]
    show v.simple_vector_.take 0 ++ xs = xs
    simp

/-- Witness for C14: `Clear()` on `[7, 8, 9]`, then `PushBack(1)` and `PushBack(2)`. -/
theorem Clear_then_PushBack_witness :
    (([7, 8, 9] : List Nat).length = 3 ∧ 3 < SIZE_MOD ∧ ([1, 2] : List Nat).length ≤ 3) ∧
    (({ simple_vector_ := [7, 8, 9], size_ := 3, capacity_ := 3 } :
        SimpleVector Nat).Clear.PushBack_each [1, 2]).vec.capacity_ = 3 ∧
    (({ simple_vector_ := [7, 8, 9], size_ := 3, capacity_ := 3 } :
        SimpleVector Nat).Clear.PushBack_each [1, 2]).vec.contents = [1, 2] :=
  ⟨⟨rfl, by norm_num [SIZE_MOD], by decide⟩,
   (Clear_then_PushBack { simple_vector_ := [7, 8, 9], size_ := 3, capacity_ := 3 } [1, 2]
      rfl (by norm_num [SIZE_MOD]) (by decide)).2.2.2.1,
   (Clear_then_PushBack { simple_vector_ := [7, 8, 9], size_ := 3, capacity_ := 3 } [1, 2]
      rfl (by norm_num [SIZE_MOD]) (by decide)).2.2.2.2.2.2.1⟩

/-- C15: `a == b` holds exactly when the sizes are equal and `a[i] == b[i]` for
every `i < a.size`; the answer depends on the sizes and the held elements only,
not on capacities or on slots at or beyond the size.  So `==` on vectors is
reflexive, symmetric and transitive whenever `==` on elements is, and `a != b`
is the negation of `a == b`. -/
theorem operator_eq_elementwise {α : Type} [Inhabited α] [BEq α] (a b : SimpleVector α) :
    (a.size_ ≤ a.simple_vector_.length → b.size_ ≤ b.simple_vector_.length →
      (a.operator_eq b = true ↔
        a.size_ = b.size_ ∧
        ∀ i, i < a.size_ →
          ∃ x y, a.index i = some x ∧ b.index i = some y ∧ (x == y) = true)) ∧
    (∀ a1 b1 : SimpleVector α, a1.size_ = a.size_ → b1.size_ = b.size_ →
      a1.contents = a.contents → b1.contents = b.contents →
      a1.operator_eq b1 = a.operator_eq b) ∧
    ((∀ x : α, (x == x) = true) → a.operator_eq a = true) ∧
    ((∀ x y : α, (x == y) = true → (y == x) = true) →
      a.operator_eq b = true → b.operator_eq a = true) ∧
    ((∀ x y z : α, (x == y) = true → (y == z) = true → (x == z) = true) →
      ∀ c : SimpleVector α, a.operator_eq b = true → b.operator_eq c = true →
        a.operator_eq c = true) ∧
    a.operator_ne b = !(a.operator_eq b) := by
  refine ⟨?_, ?_, ?_, ?_, ?_, rfl⟩
  · intro ha hb
    rw [operator_eq_iff_slots]
    constructor
    · rintro ⟨hs, hall⟩
      refine ⟨hs, ?_⟩
      intro i hi
      refine ⟨a.simple_vector_.getD i default, b.simple_vector_.getD i default, ?_, ?_,
        hall i hi⟩
      · exact getD_eq_some _ _ (by omega)
      · exact getD_eq_some _ _ (by omega)
    · rintro ⟨hs, hall⟩
      refine ⟨hs, ?_⟩
      intro i hi
      obtain ⟨x, y, hx, hy, hxy⟩ := hall i hi
      have hx1 : a.simple_vector_[i]? = some x := hx
      have hy1 : b.simple_vector_[i]? = some y := hy
      rw [List.getD_eq_getElem?_getD, List.getD_eq_getElem?_getD, hx1, hy1]
      exact hxy
  · intro a1 b1 hsa hsb hca hcb
    have key : (a1.operator_eq b1 = true) ↔ (a.operator_eq b = true) := by
      rw [operator_eq_iff_slots, operator_eq_iff_slots, hsa, hsb]
      constructor
      · rintro ⟨hs, hall⟩
        refine ⟨hs, ?_⟩
        intro i hi
        have := hall i hi
        rw [getD_of_contents_eq a a1 hsa hca i hi,
          getD_of_contents_eq b b1 hsb hcb i (by omega)] at this
        exact this
      · rintro ⟨hs, hall⟩
        refine ⟨hs, ?_⟩
        intro i hi
        rw [getD_of_contents_eq a a1 hsa hca i hi,
          getD_of_contents_eq b b1 hsb hcb i (by omega)]
        exact hall i hi
    cases h1 : a1.operator_eq b1 <;> cases h2 : a.operator_eq b <;> simp_all
  · intro hrefl
    rw [operator_eq_iff_slots]
    exact ⟨rfl, fun i _ => hrefl _⟩
  · intro hsymm h
    rw [operator_eq_iff_slots] at h ⊢
    exact ⟨h.1.symm, fun i hi => hsymm _ _ (h.2 i (by omega))⟩
  · intro htrans c hab hbc
    rw [operator_eq_iff_slots] at hab hbc ⊢
    exact ⟨hab.1.trans hbc.1,
      fun i hi => htrans _ _ _ (hab.2 i hi) (hbc.2 i (by omega))⟩

/-- Witness for C15: `[1, 2]` with capacity 2 against `[1, 2]` with capacity 3
and a stale third slot. -/
theorem operator_eq_elementwise_witness :
    ((2 ≤ ([1, 2] : List Nat).length ∧ 2 ≤ ([1, 2, 9] : List Nat).length) ∧
      ∀ x : Nat, (x == x) = true) ∧
    (({ simple_vector_ := [1, 2], size_ := 2, capacity_ := 2 } : SimpleVector Nat).operator_eq
        { simple_vector_ := [1, 2, 9], size_ := 2, capacity_ := 3 } = true ↔
      (2 : Nat) = 2 ∧
      ∀ i, i < 2 →
        ∃ x y, ({ simple_vector_ := [1, 2], size_ := 2, capacity_ := 2 } :
            SimpleVector Nat).index i = some x ∧
          ({ simple_vector_ := [1, 2, 9], size_ := 2, capacity_ := 3 } :
            SimpleVector Nat).index i = some y ∧ (x == y) = true) ∧
    ({ simple_vector_ := [1, 2], size_ := 2, capacity_ := 2 } : SimpleVector Nat).operator_eq
        { simple_vector_ := [1, 2], size_ := 2, capacity_ := 2 } = true :=
  ⟨⟨⟨by decide, by decide⟩, fun x => by simp⟩,
   (operator_eq_elementwise { simple_vector_ := [1, 2], size_ := 2, capacity_ := 2 }
      { simple_vector_ := [1, 2, 9], size_ := 2, capacity_ := 3 }).1 (by decide) (by decide),
   (operator_eq_elementwise { simple_vector_ := [1, 2], size_ := 2, capacity_ := 2 }
      { simple_vector_ := [1, 2, 9], size_ := 2, capacity_ := 3 }).2.2.1 (fun x => by simp)⟩

/-- C16: `a >= b` is claimed to hold exactly when `a < b` does not.  For
`a = {1}` and `b = {2}` the code gives `a < b` and also `a >= b`, and it gives
`b >= a` as false: `operator>=` returns `!(rhs < lhs)`, the value of `a <= b`. -/
theorem operator_ge_has_operands_swapped :
    (SimpleVector.init_ctor [1] : Outcome Nat Unit).vec =
      { simple_vector_ := [1], size_ := 1, capacity_ := 1 } ∧
    (SimpleVector.init_ctor [2] : Outcome Nat Unit).vec =
      { simple_vector_ := [2], size_ := 1, capacity_ := 1 } ∧
    (SimpleVector.init_ctor [1] : Outcome Nat Unit).vec.operator_lt
      (SimpleVector.init_ctor [2] : Outcome Nat Unit).vec = true ∧
    (SimpleVector.init_ctor [1] : Outcome Nat Unit).vec.operator_ge
      (SimpleVector.init_ctor [2] : Outcome Nat Unit).vec = true ∧
    (SimpleVector.init_ctor [2] : Outcome Nat Unit).vec.operator_lt
      (SimpleVector.init_ctor [1] : Outcome Nat Unit).vec = false ∧
    (SimpleVector.init_ctor [2] : Outcome Nat Unit).vec.operator_ge
      (SimpleVector.init_ctor [1] : Outcome Nat Unit).vec = false := by
  exact ⟨rfl, rfl, rfl, rfl, rfl, rfl⟩

/-- C17: the capacity is claimed to equal the number of allocated slots in every
reachable state.  `Resize(1)` on a default-constructed vector allocates 1 slot
and sets `capacity_ = 2`; a following `PushBack` then writes slot 1 of the
1-slot buffer.  Copy-constructing from a vector with size 1 and capacity 2
allocates 1 slot and sets `capacity_ = 2` as well. -/
theorem capacity_exceeds_allocated_slots :
    ((SimpleVector.default_ctor : SimpleVector Nat).Resize 1).vec =
      { simple_vector_ := [0], size_ := 1, capacity_ := 2 } ∧
    Reachable ({ simple_vector_ := [0], size_ := 1, capacity_ := 2 } : SimpleVector Nat) ∧
    ({ simple_vector_ := [0], size_ := 1, capacity_ := 2 } :
        SimpleVector Nat).simple_vector_.length ≠
      ({ simple_vector_ := [0], size_ := 1, capacity_ := 2 } : SimpleVector Nat).capacity_ ∧
    ({ simple_vector_ := [0], size_ := 1, capacity_ := 2 } : SimpleVector Nat).PushBack 5 =
      { vec := { simple_vector_ := [0], size_ := 2, capacity_ := 2 },
        ret := (), in_bounds := false } ∧
    (SimpleVector.copy_ctor
        ((SimpleVector.reserve_ctor 2 : Outcome Nat Unit).vec.PushBack 1).vec).vec =
      { simple_vector_ := [1], size_ := 1, capacity_ := 2 } ∧
    Reachable ({ simple_vector_ := [1], size_ := 1, capacity_ := 2 } : SimpleVector Nat) := by
  have h1 : ((SimpleVector.default_ctor : SimpleVector Nat).Resize 1).vec =
      { simple_vector_ := [0], size_ := 1, capacity_ := 2 } := rfl
  have h2 : (SimpleVector.copy_ctor
        ((SimpleVector.reserve_ctor 2 : Outcome Nat Unit).vec.PushBack 1).vec).vec =
      { simple_vector_ := [1], size_ := 1, capacity_ := 2 } := rfl
  refine ⟨h1, ?_, by decide, rfl, h2, ?_⟩
  · rw [← h1]
    exact Reachable.Resize 1 Reachable.default_ctor (by norm_num [SIZE_MOD])
  · rw [← h2]
    exact Reachable.copy_ctor (Reachable.PushBack 1
      (Reachable.reserve_ctor 2 (by norm_num [SIZE_MOD])))

/-- C18: the scenario with temporaries.  The three `PushBack` calls give
(size, capacity) = (1, 1), (2, 2), (3, 4) as claimed.  `Insert(begin() + 1, 9)`
then takes the in-place branch of the moving overload, whose `copy_backward`
ends at index `++size_ + 1 == 5`: it writes slot 4 of the 4-slot buffer under
either evaluation order of the arguments, and when `end()` is read before the
increment the vector holds `[1, 9, 3, 2]`, not `[1, 9, 2, 3]`.  From
`[1, 9, 2, 3]` the call `Erase(begin() + 2)` leaves `[1, 9, 3]` with size 3 and
`At(5)` throws, as claimed. -/
theorem scenario_Insert_move_writes_past_buffer :
    ((SimpleVector.default_ctor : SimpleVector Nat).PushBack_move 1).vec =
      { simple_vector_ := [1], size_ := 1, capacity_ := 1 } ∧
    (({ simple_vector_ := [1], size_ := 1, capacity_ := 1 } :
        SimpleVector Nat).PushBack_move 2).vec =
      { simple_vector_ := [1, 2], size_ := 2, capacity_ := 2 } ∧
    (({ simple_vector_ := [1, 2], size_ := 2, capacity_ := 2 } :
        SimpleVector Nat).PushBack_move 3).vec =
      { simple_vector_ := [1, 2, 3, 0], size_ := 3, capacity_ := 4 } ∧
    ({ simple_vector_ := [1, 2, 3, 0], size_ := 3, capacity_ := 4 } :
        SimpleVector Nat).Insert_move 1 9 true =
      .ok { vec := { simple_vector_ := [1, 9, 3, 2], size_ := 4, capacity_ := 4 },
            ret := 1, in_bounds := false } ∧
    ({ simple_vector_ := [1, 2, 3, 0], size_ := 3, capacity_ := 4 } :
        SimpleVector Nat).Insert_move 1 9 false =
      .ok { vec := { simple_vector_ := [1, 9, 2, 3], size_ := 4, capacity_ := 4 },
            ret := 1, in_bounds := false } ∧
    ({ simple_vector_ := [1, 9, 2, 3], size_ := 4, capacity_ := 4 } :
        SimpleVector Nat).Erase 2 =
      .ok { vec := { simple_vector_ := [1, 9, 3, 3], size_ := 3, capacity_ := 4 },
            ret := 2, in_bounds := true } ∧
    ({ simple_vector_ := [1, 9, 3, 3], size_ := 3, capacity_ := 4 } :
        SimpleVector Nat).contents = [1, 9, 3] ∧
    ({ simple_vector_ := [1, 9, 3, 3], size_ := 3, capacity_ := 4 } :
        SimpleVector Nat).At 5 = .error Error.out_of_range := by
  exact ⟨rfl, rfl, rfl, rfl, rfl, rfl, rfl, rfl⟩

/-- C19: the moving `Insert` on a full vector (`size_ == capacity_ == c` over a
buffer of `c` slots, `2 * c` a `size_t`) with moving modelled as copying: for
every index `i <= size_` the call does not throw, leaves
`s[0..i) ++ [value] ++ s[i..size)` with size `c + 1`, sets the capacity to `2c`
when `c > 0` and to `1` when `c == 0`, over a buffer of that many slots,
returns the position of index `i` and stays inside the buffers. -/
theorem Insert_move_into_full_vector {α : Type} [Inhabited α] (v : SimpleVector α) (i : Nat)
    (value : α) (end_first : Bool) (hfull : v.size_ = v.capacity_)
    (hbuf : v.simple_vector_.length = v.capacity_) (hmax : 2 * v.capacity_ < SIZE_MOD)
    (hi : i ≤ v.size_) :
    ∃ r, v.Insert_move (i : Int) value end_first = .ok r ∧
      r.vec.contents = v.contents.take i ++ [value] ++ v.contents.drop i ∧
      r.vec.size_ = v.capacity_ + 1 ∧
      (0 < v.capacity_ → r.vec.capacity_ = 2 * v.capacity_) ∧
      (v.capacity_ = 0 → r.vec.size_ = 1 ∧ r.vec.capacity_ = 1) ∧
      r.vec.simple_vector_.length = r.vec.capacity_ ∧
      r.ret = i ∧
      r.in_bounds = true := by
  have hM := size_mod_eq
  have hg : 0 ≤ (i : Int) ∧ (v.size_ : Int) ≥ (i : Int) :=
    ⟨Int.natCast_nonneg i, by exact_mod_cast hi⟩
  have hsz : (v.size_ + 1) % SIZE_MOD = v.size_ + 1 := Nat.mod_eq_of_lt (by omega)
  have hsz1 : (1 + v.size_) % SIZE_MOD = v.size_ + 1 := by
    rw [Nat.add_comm]; exact hsz
  by_cases hc : v.capacity_ = 0
  · have hs0 : v.size_ = 0 := by omega
    have hi0 : i = 0 := by omega
    have hc1 : (v.capacity_ + 1) % SIZE_MOD = 1 := by rw [hc]; rfl
    refine ⟨_, by unfold SimpleVector.Insert_move; rw [if_pos hg, if_pos hc], ?_, ?_, ?_, ?_,
      ?_, ?_, ?_⟩
    · simp only [SimpleVector.contents, hs0, hc1, hi0]
      simp [std_copy, copy_loop, ArrayPtr.alloc, SIZE_MOD]
    · show (v.size_ + 1) % SIZE_MOD = v.capacity_ + 1
      rw [hsz]; omega
    · intro h; omega
    · intro _
      refine ⟨?_, hc1⟩
      show (v.size_ + 1) % SIZE_MOD = 1
      rw [hsz]; omega
    · show ((std_copy _ _ _ _ _).1.set _ _).length = (v.capacity_ + 1) % SIZE_MOD
      rw [List.length_set, std_copy_length, alloc_length]
    · exact hi0.symm
    · show ((std_copy _ _ _ _ _).2 && decide (_ < (std_copy _ _ _ _ _).1.length)) = true
      rw [std_copy_length, alloc_length, hc1, hs0]
      simp [std_copy, copy_loop]
  · have hle : v.capacity_ ≤ v.size_ := by omega
    have hc2 : v.capacity_ * 2 % SIZE_MOD = 2 * v.capacity_ := by
      rw [Nat.mod_eq_of_lt (by omega)]; omega
    have hlenR : ∀ m, (std_copy v.simple_vector_ 0 v.size_ (ArrayPtr.alloc m : ArrayPtr α)
        0).1.length = m := by
      intro m
      rw [std_copy_length, alloc_length]
    have hR := std_copy_alloc_fst v.simple_vector_ v.size_ (2 * v.capacity_) (by omega)
      (by omega)
    have hRb := std_copy_alloc_snd v.simple_vector_ v.size_ (2 * v.capacity_) (by omega)
      (by omega)
    have hB := copy_backward_loop_getElem? v.simple_vector_ (v.size_ - i) v.size_
      (std_copy v.simple_vector_ 0 v.size_ (ArrayPtr.alloc (2 * v.capacity_) : ArrayPtr α) 0).1
      (v.size_ + 1) (by omega) (by omega) (by omega) (by rw [hlenR]; omega)
    have hBb := copy_backward_loop_in_bounds v.simple_vector_ (v.size_ - i) v.size_
      (std_copy v.simple_vector_ 0 v.size_ (ArrayPtr.alloc (2 * v.capacity_) : ArrayPtr α) 0).1
      (v.size_ + 1) (by omega) (by omega) (by omega) (by rw [hlenR]; omega)
    refine ⟨_, by unfold SimpleVector.Insert_move; rw [if_pos hg, if_neg hc, if_pos hle],
      ?_, ?_, ?_, ?_, ?_, ?_, ?_⟩
    · simp only [SimpleVector.contents, Int.toNat_natCast, hsz, hsz1, hc2, std_copy_backward]
      apply take_succ_of_inserted _ v.simple_vector_ v.size_ i value hi (by omega)
      intro j hj
      rw [List.getElem?_set, copy_backward_loop_length, hlenR, hB]
      by_cases h1 : j < i
      · rw [if_pos h1, if_neg (by omega), if_neg (by omega), hR,
          List.getElem?_append_left (by simp; omega), List.getElem?_take, if_pos (by omega)]
      · rw [if_neg h1]
        by_cases h2 : j = i
        · subst h2
          rw [if_pos rfl, if_pos rfl, if_pos (by omega)]
        · rw [if_neg h2, if_neg (by omega), if_pos (by omega)]
          congr 1; omega
    · show (v.size_ + 1) % SIZE_MOD = v.capacity_ + 1
      rw [hsz]; omega
    · intro _
      exact hc2
    · intro h; omega
    · show ((std_copy_backward _ _ _ _ _).1.set _ _).length = v.capacity_ * 2 % SIZE_MOD
      simp only [std_copy_backward]
      rw [List.length_set, copy_backward_loop_length, hlenR]
    · simp only [Int.toNat_natCast]
    · simp only [Int.toNat_natCast, hsz1, hc2, std_copy_backward, hRb, hBb,
        copy_backward_loop_length, hlenR, Bool.true_and, Bool.and_true, Bool.and_eq_true,
        decide_eq_true_eq]
      omega

/-- Witness for C19: the moving `Insert` of `7` at index 1 of the full vector `[1, 2]`. -/
theorem Insert_move_into_full_vector_witness :
    ((2 : Nat) = 2 ∧ ([1, 2] : List Nat).length = 2 ∧ 2 * 2 < SIZE_MOD ∧ 1 ≤ 2) ∧
    ∃ r, ({ simple_vector_ := [1, 2], size_ := 2, capacity_ := 2 } :
        SimpleVector Nat).Insert_move ((1 : Nat) : Int) 7 true = .ok r ∧
      r.vec.contents = [1, 7, 2] ∧
      r.vec.size_ = 2 + 1 ∧
      (0 < 2 → r.vec.capacity_ = 2 * 2) ∧
      ((2 : Nat) = 0 → r.vec.size_ = 1 ∧ r.vec.capacity_ = 1) ∧
      r.vec.simple_vector_.length = r.vec.capacity_ ∧
      r.ret = 1 ∧
      r.in_bounds = true :=
  ⟨⟨rfl, rfl, by norm_num [SIZE_MOD], by decide⟩,
   Insert_move_into_full_vector { simple_vector_ := [1, 2], size_ := 2, capacity_ := 2 } 1 7
     true rfl rfl (by norm_num [SIZE_MOD]) (by decide)⟩

/-- C20: the in-place branch of the moving `Insert` is claimed to touch only
slots below the capacity, also when `capacity == size + 1`.  For every vector
with `capacity_ == size_ + 1` slots and every index `i < size_` the call does
not throw and some access leaves the buffer, under either evaluation order:
`copy_backward` moves at least one element and its destination ends at index
`size_ + 2`, so it writes slot `size_ + 1 == capacity_`. -/
theorem Insert_move_in_place_leaves_buffer {α : Type} [Inhabited α] (v : SimpleVector α)
    (i : Nat) (value : α) (end_first : Bool)
    (hbuf : v.simple_vector_.length = v.capacity_) (hcap : v.capacity_ = v.size_ + 1)
    (hmax : v.capacity_ + 1 < SIZE_MOD) (hi : i < v.size_) :
    ∃ r, v.Insert_move (i : Int) value end_first = .ok r ∧ r.in_bounds = false := by
  have hM := size_mod_eq
  have hg : 0 ≤ (i : Int) ∧ (v.size_ : Int) ≥ (i : Int) :=
    ⟨Int.natCast_nonneg i, by exact_mod_cast hi.le⟩
  have hsz : (v.size_ + 1) % SIZE_MOD = v.size_ + 1 := Nat.mod_eq_of_lt (by omega)
  have hsz2 : (v.size_ + 1 + 1) % SIZE_MOD = v.size_ + 2 := Nat.mod_eq_of_lt (by omega)
  refine ⟨_, by unfold SimpleVector.Insert_move;
                rw [if_pos hg, if_neg (by omega), if_neg (by omega)], ?_⟩
  simp only [Int.toNat_natCast, hsz, hsz2, std_copy_backward_within]
  rw [copy_backward_within_loop_overrun _ _ _ _ (by cases end_first <;> simp <;> omega)
    (by omega)]
  simp

/-- Witness for C20: the moving `Insert` at index 0 of `[1, 2]` with capacity 3. -/
theorem Insert_move_in_place_leaves_buffer_witness :
    (([1, 2, 0] : List Nat).length = 3 ∧ (3 : Nat) = 2 + 1 ∧ 3 + 1 < SIZE_MOD ∧ 0 < 2) ∧
    ∃ r, ({ simple_vector_ := [1, 2, 0], size_ := 2, capacity_ := 3 } :
        SimpleVector Nat).Insert_move ((0 : Nat) : Int) 9 false = .ok r ∧
      r.in_bounds = false :=
  ⟨⟨rfl, rfl, by norm_num [SIZE_MOD], by decide⟩,
   Insert_move_in_place_leaves_buffer { simple_vector_ := [1, 2, 0], size_ := 2, capacity_ := 3 }
     0 9 false rfl rfl (by norm_num [SIZE_MOD]) (by decide)⟩

end SimpleVectorModel
